import Mathlib

/-!
Verification of the LM Studio MCP bridge (`scripts/lmstudio_bridge.py`) and the
installer-link generator (`scripts/generate_installer.py`).

The Python code is shallowly embedded: JSON values (as produced by
`response.json()` / `json.loads` and consumed by `json.dumps`) are the
inductive type `Json`; each bridge tool becomes a total Lean function from an
oracle describing the backend behaviour (`Backend`) to the returned string;
fallible Python expressions (subscripts, `.get` on non-dicts, malformed bodies)
run in `Except String`, and the `try/except` blocks of the source become the
explicit handler at the end of each tool.
-/

namespace LMBridge

/-- JSON values, the data model shared by the bridge (HTTP response bodies,
the aggregate result of `multi_agent_query`) and the installer
(configuration objects, `json.dumps` / `json.loads`). -/
inductive Json where
  | jnull : Json
  | jbool (b : Bool) : Json
  | jnum (n : Int) : Json
  | jstr (s : String) : Json
  | jarr (xs : List Json) : Json
  | jobj (kvs : List (String × Json)) : Json
deriving Repr

/-- Python truthiness (`if not x`) for JSON-shaped values:
`None`, `False`, `0`, `""`, `[]`, `{}` are falsy. -/
def truthy : Json → Bool
  | .jnull => false
  | .jbool b => b
  | .jnum n => n != 0
  | .jstr s => !s.isEmpty
  | .jarr xs => !xs.isEmpty
  | .jobj kvs => !kvs.isEmpty

/-- First-match association lookup, the behaviour of a Python dict whose keys
are unique. -/
def lookupJ : List (String × Json) → String → Option Json
  | [], _ => none
  | (k, v) :: rest, key => if k = key then some v else lookupJ rest key

/-- Python `d.get(key, default)`: raises `AttributeError` when `d` is not a
dict. The error message stands for `str(e)` of the library exception. -/
def jGet (j : Json) (key : String) (dflt : Json) : Except String Json :=
  match j with
  | .jobj kvs => .ok ((lookupJ kvs key).getD dflt)
  | _ => .error "AttributeError: object has no attribute get"

/-- Python `d[key]` for a string key: `KeyError` when missing, `TypeError`
when the value is not a dict. -/
def jIdx (j : Json) (key : String) : Except String Json :=
  match j with
  | .jobj kvs =>
    match lookupJ kvs key with
    | some v => .ok v
    | none => .error ("KeyError: " ++ key)
  | _ => .error "TypeError: object is not subscriptable"

/-- Python `l[i]` for an integer index: `IndexError` past the end; a string
yields its one-character slice; other shapes raise `TypeError`. -/
def jAt (j : Json) (i : Nat) : Except String Json :=
  match j with
  | .jarr xs =>
    match xs.get? i with
    | some v => .ok v
    | none => .error "IndexError: list index out of range"
  | .jstr s =>
    if i < s.length then .ok (.jstr ((s.drop i).take 1))
    else .error "IndexError: string index out of range"
  | _ => .error "TypeError: object is not subscriptable"

/-- Python `iter(x)` as used by `for model in models`: lists yield elements,
strings their characters, dicts their keys; other values raise `TypeError`. -/
def iterJson : Json → Except String (List Json)
  | .jarr xs => .ok xs
  | .jstr s => .ok (s.data.map (fun c => .jstr (String.mk [c])))
  | .jobj kvs => .ok (kvs.map (fun kv => .jstr kv.1))
  | _ => .error "TypeError: object is not iterable"

/-- Decimal digits of a natural number. -/
def natChars (n : Nat) : List Char :=
  if h : n < 10 then [Char.ofNat (48 + n)]
  else
    have : n / 10 < n := Nat.div_lt_self (by omega) (by omega)
    natChars (n / 10) ++ [Char.ofNat (48 + n % 10)]

/-- `json.dumps` rendering of an integer. -/
def intChars (n : Int) : List Char :=
  if n < 0 then '-' :: natChars (-n).toNat else natChars n.toNat

mutual
/-- Python `repr` for JSON-shaped values (containers quote their strings with
an apostrophe, written via its code point). -/
def reprPy : Json → String
  | .jnull => "None"
  | .jbool true => "True"
  | .jbool false => "False"
  | .jnum n => String.mk (intChars n)
  | .jstr s => String.mk [Char.ofNat 39] ++ s ++ String.mk [Char.ofNat 39]
  | .jarr xs => "[" ++ reprPyArr xs ++ "]"
  | .jobj kvs => "\x7b" ++ reprPyObj kvs ++ "\x7d"

def reprPyArr : List Json → String
  | [] => ""
  | [x] => reprPy x
  | x :: y :: rest => reprPy x ++ ", " ++ reprPyArr (y :: rest)

def reprPyObj : List (String × Json) → String
  | [] => ""
  | [(k, v)] => String.mk [Char.ofNat 39] ++ k ++ String.mk [Char.ofNat 39] ++ ": " ++ reprPy v
  | (k, v) :: kv :: rest =>
    String.mk [Char.ofNat 39] ++ k ++ String.mk [Char.ofNat 39] ++ ": " ++ reprPy v
      ++ ", " ++ reprPyObj (kv :: rest)
end

/-- Python `str(x)` (used by f-string interpolation and `return content`):
a string renders as itself, containers by their `repr`. -/
def render : Json → String
  | .jstr s => s
  | v => reprPy v

/-- Behaviour of the backend for one HTTP request, the oracle each tool is
evaluated against: either the request itself raises (`noConn`, message =
`str(e)`), or a response arrives with a status, a body as seen by
`response.json()` (`.error` = the body is malformed JSON and `.json()`
raises), and the raw text seen by `response.text()`. -/
inductive Backend where
  | noConn (errMsg : String)
  | resp (status : Nat) (body : Except String Json) (text : String)
deriving Repr

/-- The message list built by `chat_completion` / `multi_agent_query`: an
optional system message (only when `system_prompt` is truthy) followed by the
user message. -/
def mkMessages (system_prompt prompt : String) : List (String × String) :=
  (if system_prompt ≠ "" then [("system", system_prompt)] else []) ++ [("user", prompt)]

/-- `health_check()`: reports reachability; the whole body runs under
`try/except Exception`. -/
def health_check (b : Backend) : String :=
  match b with
  | .noConn e => "Error connecting to LM Studio API: " ++ e
  | .resp status _ _ =>
    if status = 200 then "LM Studio API is running and accessible."
    else "LM Studio API returned status code " ++ toString status ++ "."

/-- The `except Exception as e: return <prefix> + str(e)` handler closing
each tool body. -/
def handleErr (pre : String) (res : Except String String) : String :=
  match res with
  | .ok s => s
  | .error e => pre ++ e

/-- The `for model in models` loop of `list_models`, accumulating
`"- {model['id']}\n"` lines; a failing subscript propagates as the caught
exception. -/
def fmtModelLines : List Json → Except String String
  | [] => .ok ""
  | m :: rest => do
    let i ← jIdx m "id"
    let tail ← fmtModelLines rest
    .ok ("- " ++ render i ++ "\n" ++ tail)

/-- `list_models()`. -/
def list_models (b : Backend) : String :=
  match b with
  | .noConn e => "Error listing models: " ++ e
  | .resp status body _ =>
    if status ≠ 200 then "Failed to fetch models. Status code: " ++ toString status
    else
      handleErr "Error listing models: " (do
        let data ← body
        let models ← jGet data "data" (.jarr [])
        if truthy models = false then
          pure "No models found in LM Studio."
        else do
          let items ← iterJson models
          let lines ← fmtModelLines items
          pure ("Available models in LM Studio:\n\n" ++ lines))

/-- `get_current_model()`. -/
def get_current_model (b : Backend) : String :=
  match b with
  | .noConn e => "Error identifying current model: " ++ e
  | .resp status body _ =>
    if status ≠ 200 then
      "Failed to identify current model. Status code: " ++ toString status
    else
      handleErr "Error identifying current model: " (do
        let data ← body
        let model_info ← jGet data "model" (.jstr "Unknown")
        pure ("Currently loaded model: " ++ render model_info))

/-- `chat_completion(...)`: single-model completion. The message/payload
construction (`mkMessages`) only shapes the outgoing request, which the
`Backend` oracle answers; the response processing is verbatim. -/
def chat_completion (b : Backend) : String :=
  match b with
  | .noConn e => "Error generating completion: " ++ e
  | .resp status body text =>
    if status ≠ 200 then
      "Error: LM Studio returned status code " ++ toString status ++ ": " ++ text.take 200
    else
      handleErr "Error generating completion: " (do
        let response_json ← body
        let choices ← jGet response_json "choices" (.jarr [])
        if truthy choices = false then
          pure "Error: No response generated"
        else do
          let c0 ← jAt choices 0
          let message ← jGet c0 "message" (.jobj [])
          let content ← jGet message "content" (.jstr "")
          if truthy content = false then
            pure "Error: Empty response from model"
          else
            pure (render content))

/-- One per-model result of the fan-out: the value stored under the model's
key in the `results` dict of `multi_agent_query`
(`{"success": True, content, tokens}` or `{"success": False, error}`). -/
inductive MEntry where
  | success (content : Json) (tokens : Json)
  | failure (error : String)
deriving Repr

def MEntry.isSuccess : MEntry → Bool
  | .success _ _ => true
  | .failure _ => false

/-- `query_single_model(model)`: always returns an attributed
`(model, result)` pair — every exception inside it is caught and converted to
a failure entry. -/
def query_single_model (model : String) (b : Backend) : String × MEntry :=
  match b with
  | .noConn e => (model, .failure e)
  | .resp status body text =>
    if status = 200 then
      match (do
        let data ← body
        let choices ← jIdx data "choices"
        let c0 ← jAt choices 0
        let message ← jIdx c0 "message"
        let content ← jIdx message "content"
        let usage ← jGet data "usage" (.jobj [])
        let tokens ← jGet usage "total_tokens" (.jnum 0)
        pure (content, tokens) : Except String (Json × Json)) with
      | .ok ct => (model, .success ct.1 ct.2)
      | .error e => (model, .failure e)
    else (model, .failure ("HTTP " ++ toString status ++ ": " ++ text.take 200))

/-- One element of the list returned by
`asyncio.gather(*tasks, return_exceptions=True)`: either a task's returned
`(model, result)` pair, or a raw exception the gather surfaced in its place. -/
inductive TaskResult where
  | value (pair : String × MEntry)
  | exc (msg : String)
deriving Repr

/-- The key/value pair that the result-processing loop of `multi_agent_query`
stores for one gathered item: a raw exception goes under the sentinel key
`"unknown"`. -/
def taskPair : TaskResult → String × MEntry
  | .value p => p
  | .exc e => ("unknown", .failure e)

/-- `results[k] = v` on a Python dict kept as an insertion-ordered
association list: update in place when the key exists, append otherwise. -/
def dinsert (d : List (String × MEntry)) (k : String) (v : MEntry) :
    List (String × MEntry) :=
  match d with
  | [] => [(k, v)]
  | (k', v') :: rest => if k' = k then (k', v) :: rest else (k', v') :: dinsert rest k v

/-- Building the `results` dict by successive assignment. -/
def buildDict (ps : List (String × MEntry)) : List (String × MEntry) :=
  ps.foldl (fun d p => dinsert d p.1 p.2) []

/-- Python `results.get(k)` / membership on the built dict. -/
def dlookup : List (String × MEntry) → String → Option MEntry
  | [], _ => none
  | (k', v) :: rest, k => if k' = k then some v else dlookup rest k

/-- The result-processing loop of `multi_agent_query` (lines 243-252). -/
def processResults (ts : List TaskResult) : List (String × MEntry) :=
  buildDict (ts.map taskPair)

/-- Outcome of `multi_agent_query` before serialization: the early-return
error object for an empty model list, or the per-model results dict. -/
inductive AggOut where
  | errorOut (msg : String)
  | results (d : List (String × MEntry))
deriving Repr

/-- `multi_agent_query(prompt, models, ...)` up to serialization. The backend
behaviour seen by the task launched for position `i` of `models` is
`backends i`; since `query_single_model` catches every exception, each
gathered element is an attributed pair. -/
def multi_agent_query_agg (models : List String) (backends : Nat → Backend) : AggOut :=
  if models = [] then .errorOut "No models specified"
  else
    .results (processResults
      (models.enum.map (fun p => .value (query_single_model p.2 (backends p.1)))))

/-- Lowercase hexadecimal digit, as `json.dumps` emits in `\uXXXX` escapes. -/
def toHexLower (n : Nat) : Char :=
  if n < 10 then Char.ofNat (48 + n) else Char.ofNat (87 + n)

/-- Four lowercase hex digits of `n < 0x10000`. -/
def hex4 (n : Nat) : List Char :=
  [toHexLower (n / 4096 % 16), toHexLower (n / 256 % 16),
   toHexLower (n / 16 % 16), toHexLower (n % 16)]

/-- The escape `json.dumps` (default `ensure_ascii=True`) applies to one
character of a string: short escapes for the usual controls, `\u00xx` for the
remaining controls, printable ASCII verbatim, `\uxxxx` for other BMP code
points and a surrogate pair for the rest. -/
def escChar (c : Char) : List Char :=
  if c = '"' then ['\\', '"']
  else if c = '\\' then ['\\', '\\']
  else if c = '\x08' then ['\\', 'b']
  else if c = '\x09' then ['\\', 't']
  else if c = '\x0a' then ['\\', 'n']
  else if c = '\x0c' then ['\\', 'f']
  else if c = '\x0d' then ['\\', 'r']
  else if c.toNat < 0x20 then '\\' :: 'u' :: hex4 c.toNat
  else if c.toNat < 0x7f then [c]
  else if c.toNat < 0x10000 then '\\' :: 'u' :: hex4 c.toNat
  else
    ('\\' :: 'u' :: hex4 (0xd800 + (c.toNat - 0x10000) / 0x400)) ++
    ('\\' :: 'u' :: hex4 (0xdc00 + (c.toNat - 0x10000) % 0x400))

/-- JSON string-body escaping of a whole string. -/
def escString (s : String) : List Char := (s.data.map escChar).flatten

mutual
/-- `json.dumps(x)` with the default separators `", "` and `": "`, as a
character list. -/
def dumpsJ : Json → List Char
  | .jnull => ['n', 'u', 'l', 'l']
  | .jbool true => ['t', 'r', 'u', 'e']
  | .jbool false => ['f', 'a', 'l', 's', 'e']
  | .jnum n => intChars n
  | .jstr s => '"' :: escString s ++ ['"']
  | .jarr xs => '[' :: dumpsArr xs ++ [']']
  | .jobj kvs => '\x7b' :: dumpsObj kvs ++ ['\x7d']

def dumpsArr : List Json → List Char
  | [] => []
  | [x] => dumpsJ x
  | x :: y :: rest => dumpsJ x ++ ',' :: ' ' :: dumpsArr (y :: rest)

def dumpsObj : List (String × Json) → List Char
  | [] => []
  | [(k, v)] => '"' :: escString k ++ '"' :: ':' :: ' ' :: dumpsJ v
  | (k, v) :: kv :: rest =>
    ('"' :: escString k ++ '"' :: ':' :: ' ' :: dumpsJ v) ++ ',' :: ' ' :: dumpsObj (kv :: rest)
end

/-- `json.dumps(x)` as a string. -/
def jsonDumps (j : Json) : String := String.mk (dumpsJ j)

/-- Indentation prefix used by `json.dumps(..., indent=2)`. -/
def indentChars (lvl : Nat) : List Char := List.replicate (2 * lvl) ' '

mutual
/-- `json.dumps(x, indent=2)`: containers spread one item per line. -/
def dumpsInd (lvl : Nat) : Json → List Char
  | .jnull => ['n', 'u', 'l', 'l']
  | .jbool true => ['t', 'r', 'u', 'e']
  | .jbool false => ['f', 'a', 'l', 's', 'e']
  | .jnum n => intChars n
  | .jstr s => '"' :: escString s ++ ['"']
  | .jarr [] => ['[', ']']
  | .jarr (x :: xs) =>
    '[' :: '\n' :: dumpsIndArr lvl (x :: xs) ++ '\n' :: (indentChars lvl ++ [']'])
  | .jobj [] => ['\x7b', '\x7d']
  | .jobj (kv :: kvs) =>
    '\x7b' :: '\n' :: dumpsIndObj lvl (kv :: kvs) ++ '\n' :: (indentChars lvl ++ ['\x7d'])

def dumpsIndArr (lvl : Nat) : List Json → List Char
  | [] => []
  | [x] => indentChars (lvl + 1) ++ dumpsInd (lvl + 1) x
  | x :: y :: rest =>
    (indentChars (lvl + 1) ++ dumpsInd (lvl + 1) x) ++ ',' :: '\n' :: dumpsIndArr lvl (y :: rest)

def dumpsIndObj (lvl : Nat) : List (String × Json) → List Char
  | [] => []
  | [(k, v)] =>
    indentChars (lvl + 1) ++ '"' :: escString k ++ '"' :: ':' :: ' ' :: dumpsInd (lvl + 1) v
  | (k, v) :: kv :: rest =>
    (indentChars (lvl + 1) ++ '"' :: escString k ++ '"' :: ':' :: ' ' :: dumpsInd (lvl + 1) v)
      ++ ',' :: '\n' :: dumpsIndObj lvl (kv :: rest)
end

/-- The JSON object stored for one per-model result. -/
def entryJson : MEntry → Json
  | .success c t => .jobj [("success", .jbool true), ("content", c), ("tokens", t)]
  | .failure e => .jobj [("success", .jbool false), ("error", .jstr e)]

/-- `multi_agent_query` as exposed: the aggregate serialized with
`json.dumps(results, indent=2)` on success and `json.dumps({"error": ...})`
on the empty-input error. The outer `try/except` of the source has no
remaining exception source once every per-task exception is caught inside
`query_single_model`, so its handler is unreachable in this model. -/
def multi_agent_query_str (models : List String) (backends : Nat → Backend) : String :=
  match multi_agent_query_agg models backends with
  | .errorOut msg => jsonDumps (.jobj [("error", .jstr msg)])
  | .results d => String.mk (dumpsInd 0 (.jobj (d.map (fun p => (p.1, entryJson p.2)))))

/-- One aiohttp client session, identified so that "the same pool object" is
expressible; `closed` mirrors `session.closed`. -/
structure Pool where
  pid : Nat
  closed : Bool
deriving DecidableEq, Repr

/-- The module-level state around `_session`: the current value of the global,
a fresh-identity counter, and how many pools have been constructed so far
(the instrumentation the lazy-init claim is about). -/
structure BridgeState where
  sess : Option Pool
  nextId : Nat
  created : Nat
deriving DecidableEq, Repr

/-- The `_session is None or _session.closed` test of `get_session`. -/
def needNewPool (st : BridgeState) : Bool :=
  match st.sess with
  | none => true
  | some p => p.closed

/-- `get_session()`: build a fresh session exactly when the global is absent
or closed, otherwise return the existing one unchanged. -/
def get_session (st : BridgeState) : Pool × BridgeState :=
  match st.sess with
  | some p =>
    if p.closed then
      (⟨st.nextId, false⟩,
       { sess := some ⟨st.nextId, false⟩, nextId := st.nextId + 1, created := st.created + 1 })
    else (p, st)
  | none =>
    (⟨st.nextId, false⟩,
     { sess := some ⟨st.nextId, false⟩, nextId := st.nextId + 1, created := st.created + 1 })

/-- `n` further sequential `get_session()` calls (nothing closes the session
in between, matching the claim's premise). -/
def getSessionIter : Nat → BridgeState → BridgeState
  | 0, st => st
  | n + 1, st => getSessionIter n (get_session st).2

/-- Hexadecimal digit value; both cases accepted, as `json.loads` and
`urllib.parse.unquote` do. -/
def hexDigitVal (c : Char) : Option Nat :=
  if 48 ≤ c.toNat ∧ c.toNat ≤ 57 then some (c.toNat - 48)
  else if 97 ≤ c.toNat ∧ c.toNat ≤ 102 then some (c.toNat - 87)
  else if 65 ≤ c.toNat ∧ c.toNat ≤ 70 then some (c.toNat - 55)
  else none

/-- Value of a four-hex-digit group. -/
def hex4Val (a b c d : Char) : Option Nat :=
  match hexDigitVal a, hexDigitVal b, hexDigitVal c, hexDigitVal d with
  | some x, some y, some z, some w => some (((x * 16 + y) * 16 + z) * 16 + w)
  | _, _, _, _ => none

/-- The character denoted by a short JSON escape `\e`. -/
def escName (e : Char) : Option Char :=
  if e = '"' then some '"'
  else if e = '\\' then some '\\'
  else if e = '/' then some '/'
  else if e = 'b' then some '\x08'
  else if e = 't' then some '\x09'
  else if e = 'n' then some '\x0a'
  else if e = 'f' then some '\x0c'
  else if e = 'r' then some '\x0d'
  else none

/-- JSON string-body scanner, inverting `escChar`: literal characters, short
escapes, `\uXXXX`, and surrogate pairs recombined as `json.loads` does. A
lone surrogate is rejected (no Lean `Char` exists for it; the encoder never
emits one). Fuel bounds the produced characters. -/
def parseStrAux : Nat → List Char → Option (List Char × List Char)
  | 0, _ => none
  | fuel + 1, cs =>
    match cs with
    | [] => none
    | c :: rest =>
      if c = '"' then some ([], rest)
      else if c = '\\' then
        match rest with
        | [] => none
        | e :: rest2 =>
          if e = 'u' then
            match rest2 with
            | h1 :: h2 :: h3 :: h4 :: rest3 =>
              match hex4Val h1 h2 h3 h4 with
              | none => none
              | some n =>
                if n < 0xd800 ∨ 0xe000 ≤ n then
                  (parseStrAux fuel rest3).map (fun pr => (Char.ofNat n :: pr.1, pr.2))
                else if n < 0xdc00 then
                  match rest3 with
                  | b1 :: u2 :: l1 :: l2 :: l3 :: l4 :: rest4 =>
                    if b1 = '\\' ∧ u2 = 'u' then
                      match hex4Val l1 l2 l3 l4 with
                      | some m =>
                        if 0xdc00 ≤ m ∧ m < 0xe000 then
                          (parseStrAux fuel rest4).map (fun pr =>
                            (Char.ofNat (0x10000 + (n - 0xd800) * 0x400 + (m - 0xdc00)) :: pr.1,
                             pr.2))
                        else none
                      | none => none
                    else none
                  | _ => none
                else none
            | _ => none
          else
            match escName e with
            | some ec => (parseStrAux fuel rest2).map (fun pr => (ec :: pr.1, pr.2))
            | none => none
      else (parseStrAux fuel rest).map (fun pr => (c :: pr.1, pr.2))

/-- ASCII decimal digit test. -/
def digitCh (c : Char) : Bool := decide (48 ≤ c.toNat ∧ c.toNat ≤ 57)

/-- True when the input does not continue with a digit (the boundary after a
maximal-munch number literal). -/
def headNotDigit : List Char → Prop
  | [] => True
  | c :: _ => digitCh c = false

/-- Decimal-digit run at the head of the input, with its value. -/
def parseNatChars (cs : List Char) : Option (Nat × List Char) :=
  let ds := cs.takeWhile digitCh
  if ds.isEmpty then none
  else some (ds.foldl (fun a c => a * 10 + (c.toNat - 48)) 0, cs.dropWhile digitCh)

/-- JSON integer literal (optional leading minus). -/
def parseIntChars (cs : List Char) : Option (Int × List Char) :=
  match cs with
  | [] => none
  | c :: rest =>
    if c = '-' then (parseNatChars rest).map (fun p => (-(p.1 : Int), p.2))
    else (parseNatChars (c :: rest)).map (fun p => ((p.1 : Int), p.2))

/-- Skip spaces, the only inter-token whitespace `json.dumps` emits. -/
def skipSp (cs : List Char) : List Char := cs.dropWhile (fun c => c = ' ')

mutual
/-- Recursive-descent JSON value parser (integers, not floats — the
serializer under verification emits no floats), inverting `dumpsJ`. -/
def parseVal : Nat → List Char → Option (Json × List Char)
  | 0, _ => none
  | fuel + 1, cs =>
    match cs with
    | [] => none
    | c :: rest =>
      if c = 'n' then
        match rest with
        | 'u' :: 'l' :: 'l' :: r => some (.jnull, r)
        | _ => none
      else if c = 't' then
        match rest with
        | 'r' :: 'u' :: 'e' :: r => some (.jbool true, r)
        | _ => none
      else if c = 'f' then
        match rest with
        | 'a' :: 'l' :: 's' :: 'e' :: r => some (.jbool false, r)
        | _ => none
      else if c = '"' then
        (parseStrAux fuel rest).map (fun pr => (.jstr (String.mk pr.1), pr.2))
      else if c = '[' then
        match rest with
        | [] => none
        | c2 :: r2 =>
          if c2 = ']' then some (.jarr [], r2)
          else (parseElems fuel rest).map (fun pr => (.jarr pr.1, pr.2))
      else if c = '\x7b' then
        match rest with
        | [] => none
        | c2 :: r2 =>
          if c2 = '\x7d' then some (.jobj [], r2)
          else (parseMembers fuel rest).map (fun pr => (.jobj pr.1, pr.2))
      else if c = '-' ∨ digitCh c then
        (parseIntChars cs).map (fun p => (.jnum p.1, p.2))
      else none

/-- Comma-separated array elements up to the closing bracket. -/
def parseElems : Nat → List Char → Option (List Json × List Char)
  | 0, _ => none
  | fuel + 1, cs =>
    match parseVal fuel cs with
    | none => none
    | some (v, r) =>
      match r with
      | ']' :: r2 => some ([v], r2)
      | ',' :: r2 => (parseElems fuel (skipSp r2)).map (fun pr => (v :: pr.1, pr.2))
      | _ => none

/-- Comma-separated `"key": value` members up to the closing brace. -/
def parseMembers : Nat → List Char → Option (List (String × Json) × List Char)
  | 0, _ => none
  | fuel + 1, cs =>
    match cs with
    | '"' :: r =>
      match parseStrAux fuel r with
      | none => none
      | some (k, r1) =>
        match r1 with
        | ':' :: r2 =>
          match parseVal fuel (skipSp r2) with
          | none => none
          | some (v, r3) =>
            match r3 with
            | '\x7d' :: r4 => some ([(String.mk k, v)], r4)
            | ',' :: r4 =>
              (parseMembers fuel (skipSp r4)).map (fun pr => ((String.mk k, v) :: pr.1, pr.2))
            | _ => none
        | _ => none
    | _ => none
end

/-- Parse a complete JSON document (no trailing garbage). -/
def parseJsonChars (cs : List Char) : Option Json :=
  match parseVal (cs.length + 1) cs with
  | some (j, []) => some j
  | _ => none

/-- `json.loads` on a string, for the documents this repository produces. -/
def parseJsonStr (s : String) : Option Json := parseJsonChars s.data

/-- UTF-8 bytes of one character (`str.encode()`). -/
def utf8Char (c : Char) : List Nat :=
  let n := c.toNat
  if n < 0x80 then [n]
  else if n < 0x800 then [0xc0 + n / 0x40, 0x80 + n % 0x40]
  else if n < 0x10000 then [0xe0 + n / 0x1000, 0x80 + n / 0x40 % 0x40, 0x80 + n % 0x40]
  else [0xf0 + n / 0x40000, 0x80 + n / 0x1000 % 0x40, 0x80 + n / 0x40 % 0x40, 0x80 + n % 0x40]

/-- `str.encode()`: UTF-8 bytes of a character sequence. -/
def utf8Encode (cs : List Char) : List Nat := (cs.map utf8Char).flatten

/-- Strict UTF-8 decoding, one character per unit of fuel (surrogates and
overlong forms rejected). -/
def utf8DecodeAux : Nat → List Nat → Option (List Char)
  | 0, _ => none
  | _ + 1, [] => some []
  | fuel + 1, b :: rest =>
    if b < 0x80 then (utf8DecodeAux fuel rest).map (fun cs => Char.ofNat b :: cs)
    else if b < 0xc2 then none
    else if b < 0xe0 then
      match rest with
      | b2 :: rest2 =>
        if 0x80 ≤ b2 ∧ b2 < 0xc0 then
          (utf8DecodeAux fuel rest2).map
            (fun cs => Char.ofNat ((b - 0xc0) * 0x40 + (b2 - 0x80)) :: cs)
        else none
      | [] => none
    else if b < 0xf0 then
      match rest with
      | b2 :: b3 :: rest2 =>
        if (0x80 ≤ b2 ∧ b2 < 0xc0) ∧ (0x80 ≤ b3 ∧ b3 < 0xc0) then
          if 0x800 ≤ (b - 0xe0) * 0x1000 + (b2 - 0x80) * 0x40 + (b3 - 0x80) ∧
              ((b - 0xe0) * 0x1000 + (b2 - 0x80) * 0x40 + (b3 - 0x80) < 0xd800 ∨
               0xe000 ≤ (b - 0xe0) * 0x1000 + (b2 - 0x80) * 0x40 + (b3 - 0x80)) then
            (utf8DecodeAux fuel rest2).map
              (fun cs => Char.ofNat ((b - 0xe0) * 0x1000 + (b2 - 0x80) * 0x40 + (b3 - 0x80)) :: cs)
          else none
        else none
      | _ => none
    else if b < 0xf5 then
      match rest with
      | b2 :: b3 :: b4 :: rest2 =>
        if (0x80 ≤ b2 ∧ b2 < 0xc0) ∧ (0x80 ≤ b3 ∧ b3 < 0xc0) ∧ (0x80 ≤ b4 ∧ b4 < 0xc0) then
          if 0x10000 ≤ (b - 0xf0) * 0x40000 + (b2 - 0x80) * 0x1000 + (b3 - 0x80) * 0x40
                + (b4 - 0x80) ∧
              (b - 0xf0) * 0x40000 + (b2 - 0x80) * 0x1000 + (b3 - 0x80) * 0x40 + (b4 - 0x80)
                < 0x110000 then
            (utf8DecodeAux fuel rest2).map
              (fun cs => Char.ofNat ((b - 0xf0) * 0x40000 + (b2 - 0x80) * 0x1000
                + (b3 - 0x80) * 0x40 + (b4 - 0x80)) :: cs)
          else none
        else none
      | _ => none
    else none

/-- `bytes.decode()`: each character consumes at least one byte, so the input
length bounds the fuel. -/
def utf8Decode (bs : List Nat) : Option (List Char) := utf8DecodeAux (bs.length + 1) bs

/-- Character of one base64 sextet. -/
def b64Char (n : Nat) : Char :=
  if n < 26 then Char.ofNat (65 + n)
  else if n < 52 then Char.ofNat (97 + (n - 26))
  else if n < 62 then Char.ofNat (48 + (n - 52))
  else if n = 62 then '+' else '/'

/-- `base64.b64encode` on a byte sequence, with `=` padding. -/
def b64encode : List Nat → List Char
  | [] => []
  | [a] => [b64Char (a / 4), b64Char (a % 4 * 16), '=', '=']
  | [a, b] => [b64Char (a / 4), b64Char (a % 4 * 16 + b / 16), b64Char (b % 16 * 4), '=']
  | a :: b :: c :: rest =>
    b64Char (a / 4) :: b64Char (a % 4 * 16 + b / 16) :: b64Char (b % 16 * 4 + c / 64) ::
      b64Char (c % 64) :: b64encode rest

/-- Sextet value of a base64 character. -/
def b64CharVal (c : Char) : Option Nat :=
  if 65 ≤ c.toNat ∧ c.toNat ≤ 90 then some (c.toNat - 65)
  else if 97 ≤ c.toNat ∧ c.toNat ≤ 122 then some (c.toNat - 97 + 26)
  else if 48 ≤ c.toNat ∧ c.toNat ≤ 57 then some (c.toNat - 48 + 52)
  else if c = '+' then some 62
  else if c = '/' then some 63
  else none

/-- `base64.b64decode`. -/
def b64decode : List Char → Option (List Nat)
  | [] => some []
  | w :: x :: y :: z :: rest =>
    (match b64CharVal w, b64CharVal x with
     | some s1, some s2 =>
       if y = '=' ∧ z = '=' ∧ rest = [] then some [s1 * 4 + s2 / 16]
       else
         match b64CharVal y with
         | some s3 =>
           if z = '=' ∧ rest = [] then some [s1 * 4 + s2 / 16, s2 % 16 * 16 + s3 / 4]
           else
             match b64CharVal z with
             | some s4 =>
               (b64decode rest).map (fun bs =>
                 (s1 * 4 + s2 / 16) :: (s2 % 16 * 16 + s3 / 4) :: (s3 % 4 * 64 + s4) :: bs)
             | none => none
         | none => none
     | _, _ => none)
  | _ => none

/-- Bytes `urllib.parse.quote_plus` leaves unescaped: ASCII alphanumerics and
`_ . - ~` (with `safe=""`, as `urlencode` passes). -/
def safeByte (b : Nat) : Bool :=
  decide ((48 ≤ b ∧ b ≤ 57) ∨ (65 ≤ b ∧ b ≤ 90) ∨ (97 ≤ b ∧ b ≤ 122) ∨
    b = 95 ∨ b = 46 ∨ b = 45 ∨ b = 126)

/-- Uppercase hex digit, as `quote` emits in `%XX`. -/
def toHexUpper (n : Nat) : Char :=
  if n < 10 then Char.ofNat (48 + n) else Char.ofNat (55 + n)

/-- `quote_plus` encoding of one byte. -/
def quoteByte (b : Nat) : List Char :=
  if safeByte b then [Char.ofNat b]
  else if b = 32 then ['+']
  else ['%', toHexUpper (b / 16), toHexUpper (b % 16)]

/-- `urllib.parse.quote_plus` over a byte sequence. -/
def quotePlus (bs : List Nat) : List Char := (bs.map quoteByte).flatten

/-- `urllib.parse.unquote_plus` scanner, one output byte per unit of fuel. -/
def unquotePlusAux : Nat → List Char → Option (List Nat)
  | 0, _ => none
  | _ + 1, [] => some []
  | fuel + 1, c :: rest =>
    if c = '+' then (unquotePlusAux fuel rest).map (fun bs => 32 :: bs)
    else if c = '%' then
      match rest with
      | h1 :: h2 :: rest2 =>
        match hexDigitVal h1, hexDigitVal h2 with
        | some x, some y => (unquotePlusAux fuel rest2).map (fun bs => (x * 16 + y) :: bs)
        | _, _ => none
      | _ => none
    else (unquotePlusAux fuel rest).map (fun bs => c.toNat :: bs)

/-- `urllib.parse.unquote_plus`, back to bytes. -/
def unquotePlus (cs : List Char) : Option (List Nat) := unquotePlusAux (cs.length + 1) cs

/-- One `key=value` item of `urllib.parse.urlencode`. -/
def urlencodePair (k v : String) : List Char :=
  quotePlus (utf8Encode k.data) ++ '=' :: quotePlus (utf8Encode v.data)

/-- `urllib.parse.urlencode` of the two-entry dict
`{"name": ..., "config": ...}` (insertion order preserved). -/
def urlencode2 (k1 v1 k2 v2 : String) : List Char :=
  urlencodePair k1 v1 ++ '&' :: urlencodePair k2 v2

/-- `generate_deeplink(server_name, config)`: base64 of the UTF-8 bytes of
`json.dumps(config)` carried as the `config` query parameter. -/
def generate_deeplink (server_name : String) (config : Json) : String :=
  let config_json := jsonDumps config
  let config_base64 := String.mk (b64encode (utf8Encode config_json.data))
  String.mk ("lmstudio://add_mcp".data ++ '?' :: urlencode2 "name" server_name "config" config_base64)

/-- Split on a separator character (boundaries kept, like `str.split`). -/
def splitOnChar (sep : Char) : List Char → List (List Char)
  | [] => [[]]
  | c :: rest =>
    if c = sep then [] :: splitOnChar sep rest
    else
      match splitOnChar sep rest with
      | [] => [[c]]
      | h :: t => (c :: h) :: t

/-- Everything after the first occurrence of `sep` (empty if absent). -/
def afterChar (sep : Char) (l : List Char) : List Char :=
  (l.dropWhile (fun c => c != sep)).drop 1

/-- The value of a `key=value` query chunk when its key matches. -/
def paramValue (key : List Char) (chunk : List Char) : Option (List Char) :=
  if chunk.takeWhile (fun c => c != '=') = key then
    match chunk.dropWhile (fun c => c != '=') with
    | '=' :: v => some v
    | _ => none
  else none

/-- First query chunk carrying the wanted key. -/
def findParam (key : List Char) : List (List Char) → Option (List Char)
  | [] => none
  | chunk :: rest =>
    match paramValue key chunk with
    | some v => some v
    | none => findParam key rest

/-- Decoding the configuration embedded in a deeplink, reversing each stage
of `generate_deeplink`: locate the `config` query parameter, undo the
percent-encoding, read the value back as text, undo base64, decode the UTF-8
bytes of the JSON document, and parse it. -/
def decodeDeeplink (url : String) : Option Json := do
  let encoded ← findParam "config".data (splitOnChar '&' (afterChar '?' url.data))
  let valueBytes ← unquotePlus encoded
  let b64chars ← utf8Decode valueBytes
  let jsonBytes ← b64decode b64chars
  let jsonChars ← utf8Decode jsonBytes
  parseJsonChars jsonChars

/-- `create_stdio_config(command, script_path, env_vars)`: the `env` key is
added only when `env_vars` is truthy (so `None` and `{}` both omit it). -/
def create_stdio_config (command script_path : String) (env_vars : Option Json) : Json :=
  .jobj ([("command", .jstr command), ("args", .jarr [.jstr script_path])] ++
    (match env_vars with
     | some e => if truthy e then [("env", e)] else []
     | none => []))

/-- `create_sse_config(url, headers)`. -/
def create_sse_config (url : String) (headers : Option Json) : Json :=
  .jobj ([("url", .jstr url)] ++
    (match headers with
     | some h => if truthy h then [("headers", h)] else []
     | none => []))

/-- The preset names accepted by `--preset` (argparse `choices` rejects
anything else before `main`'s body runs). -/
inductive PresetKey where
  | pconcurrent
  | plocal
  | pdocker
deriving DecidableEq, Repr

/-- The `PRESETS` table: name, description, config. -/
def presetOf : PresetKey → String × String × Json
  | .pconcurrent =>
    ("lmstudio-concurrent", "Concurrent multi-agent MCP server with async support",
     .jobj [("command", .jstr "/Users/samscarrow/miniconda3/bin/python3"),
            ("args", .jarr
              [.jstr "/Users/samscarrow/claude-workspace/sandbox/lmstudio-mcp-consolidated/lmstudio_bridge.py"]),
            ("env", .jobj [("LMSTUDIO_API_BASE", .jstr "http://192.168.50.136:1234/v1")])])
  | .plocal =>
    ("lmstudio-local", "Local LM Studio MCP server",
     .jobj [("command", .jstr "python3"),
            ("args", .jarr [.jstr "./lmstudio_bridge.py"]),
            ("env", .jobj [("LMSTUDIO_API_BASE", .jstr "http://localhost:1234/v1")])])
  | .pdocker =>
    ("lmstudio-docker", "Dockerized LM Studio MCP server",
     .jobj [("command", .jstr "docker"),
            ("args", .jarr [.jstr "run", .jstr "-i", .jstr "--rm", .jstr "--network=host",
                            .jstr "lmstudio-mcp:latest"])])

/-- The parsed command line of `generate_installer.py`. -/
structure InstArgs where
  preset : Option PresetKey := none
  name : Option String := none
  command : Option String := none
  script : Option String := none
  env : Option String := none
  url : Option String := none
  headers : Option String := none
  output : String := "installer.html"
  openBrowser : Bool := false
  print_link : Bool := false
deriving Repr

/-- Observable side effects of the installer generator. -/
inductive Effect where
  | printed (s : String)
  | wroteFile (path : String)
  | openedBrowser (target : String)
deriving DecidableEq, Repr

/-- Result of running `main()`: the side effects performed, and the
uncaught exception, if any, that aborted it (performed effects stay). -/
structure MainOut where
  effects : List Effect
  fatal : Option String
deriving DecidableEq, Repr

/-- Python `a or dflt` on an optional string argument (`None` and `""` both
fall back). -/
def pyOrStr (o : Option String) (dflt : String) : String :=
  match o with
  | some s => if s = "" then dflt else s
  | none => dflt

/-- Truthiness of an optional string argument (`if args.x:`). -/
def optTruthy (o : Option String) : Option String :=
  match o with
  | some "" => none
  | x => x

/-- `str(e)` stand-in for the exception `json.loads` raises on bad input. -/
def jsonDecodeError : String := "json.decoder.JSONDecodeError: Expecting value"

/-- An apostrophe, written by code point to keep it out of the literals. -/
def quoteCh : String := String.mk [Char.ofNat 39]

/-- The `lmstudio mcp add-json '<name>' '<config json>'` line `main` always
prints last. -/
def manualCmd (server_name : String) (config : Json) : String :=
  "lmstudio mcp add-json " ++ quoteCh ++ server_name ++ quoteCh ++ " " ++ quoteCh
    ++ jsonDumps config ++ quoteCh

/-- The effect sequence of `main` after a configuration was selected:
either print the deeplink, or write the HTML installer (optionally opening
it), then always print the manual installation command. -/
def finishInstaller (server_name : String) (config : Json) (args : InstArgs) : List Effect :=
  (if args.print_link then
    [.printed ("Deeplink: " ++ generate_deeplink server_name config)]
  else
    [.wroteFile args.output, .printed ("✅ HTML installer saved to: " ++ args.output)] ++
    (if args.openBrowser then
      [.openedBrowser ("file://" ++ args.output), .printed "🌐 Opened installer in browser"]
     else [])) ++
  [.printed "\n📋 Manual installation command:", .printed (manualCmd server_name config)]

/-- `main()` of `generate_installer.py`, parameterized by the `json.loads`
the library supplies. Branch order is the source's: preset, then SSE
(`args.url` truthy, parsing `--headers`), then stdio (parsing `--env`); a
`loads` failure propagates as a fatal error having performed no effect. -/
def mainInstaller (loads : String → Option Json) (args : InstArgs) : MainOut :=
  match args.preset with
  | some p =>
    { effects := finishInstaller (presetOf p).1 (presetOf p).2.2 args, fatal := none }
  | none =>
    match optTruthy args.url with
    | some u =>
      match optTruthy args.headers with
      | some hs =>
        match loads hs with
        | none => { effects := [], fatal := some jsonDecodeError }
        | some h =>
          { effects := finishInstaller (pyOrStr args.name "remote-mcp")
              (create_sse_config u (some h)) args, fatal := none }
      | none =>
        { effects := finishInstaller (pyOrStr args.name "remote-mcp")
            (create_sse_config u none) args, fatal := none }
    | none =>
      match optTruthy args.env with
      | some es =>
        match loads es with
        | none => { effects := [], fatal := some jsonDecodeError }
        | some e =>
          { effects := finishInstaller (pyOrStr args.name "custom-mcp")
              (create_stdio_config (pyOrStr args.command "python3")
                (pyOrStr args.script "mcp_server.py") (some e)) args, fatal := none }
      | none =>
        { effects := finishInstaller (pyOrStr args.name "custom-mcp")
            (create_stdio_config (pyOrStr args.command "python3")
              (pyOrStr args.script "mcp_server.py") none) args, fatal := none }

end LMBridge

namespace LMBridge

/-! ### C7 stage A: JSON string escaping is inverted by the string scanner -/

theorem natChars_ne_nil (n : Nat) : natChars n ≠ [] := by
  unfold natChars
  split
  · simp
  · simp

theorem intChars_ne_nil (n : Int) : intChars n ≠ [] := by
  unfold intChars
  split
  · simp
  · exact natChars_ne_nil _

theorem char_toNat_lt (c : Char) : c.toNat < 0x110000 := by
  have h := c.valid
  unfold UInt32.isValidChar at h
  unfold Nat.isValidChar at h
  unfold Char.toNat
  rcases h with h | h
  · omega
  · exact h.2

theorem char_not_surrogate (c : Char) : c.toNat < 0xd800 ∨ 0xe000 ≤ c.toNat := by
  have h := c.valid
  unfold UInt32.isValidChar at h
  unfold Nat.isValidChar at h
  unfold Char.toNat
  rcases h with h | h
  · exact Or.inl h
  · exact Or.inr (by omega)

theorem toNat_ofNat_valid (n : Nat) (h : n.isValidChar) : (Char.ofNat n).toNat = n := by
  unfold Char.ofNat
  split
  · rfl
  · rename_i hv
    exact absurd h hv

theorem hexLower_val : ∀ d : Nat, d < 16 → hexDigitVal (toHexLower d) = some d := by decide

theorem hex4_val_eq (n : Nat) (h : n < 0x10000) :
    hex4Val (toHexLower (n / 4096 % 16)) (toHexLower (n / 256 % 16))
      (toHexLower (n / 16 % 16)) (toHexLower (n % 16)) = some n := by
  have e1 := hexLower_val (n / 4096 % 16) (by omega)
  have e2 := hexLower_val (n / 256 % 16) (by omega)
  have e3 := hexLower_val (n / 16 % 16) (by omega)
  have e4 := hexLower_val (n % 16) (by omega)
  simp only [hex4Val, e1, e2, e3, e4, Option.some.injEq]
  omega

/-- One character's escape is consumed back into that character. -/
theorem parseStrAux_esc (c : Char) (tail : List Char) (fuel : Nat) :
    parseStrAux (fuel + 1) (escChar c ++ tail)
      = (parseStrAux fuel tail).map (fun pr => (c :: pr.1, pr.2)) := by
  by_cases h1 : c = '"'
  · subst h1; rfl
  by_cases h2 : c = '\\'
  · subst h2; rfl
  by_cases h3 : c = '\x08'
  · subst h3; rfl
  by_cases h4 : c = '\x09'
  · subst h4; rfl
  by_cases h5 : c = '\x0a'
  · subst h5; rfl
  by_cases h6 : c = '\x0c'
  · subst h6; rfl
  by_cases h7 : c = '\x0d'
  · subst h7; rfl
  by_cases h8 : c.toNat < 0x20
  · rw [show escChar c = '\\' :: 'u' :: hex4 c.toNat from by
      simp [escChar, h1, h2, h3, h4, h5, h6, h7, h8]]
    have hv := hex4_val_eq c.toNat (by omega)
    have hcond : c.toNat < 0xd800 ∨ 0xe000 ≤ c.toNat := Or.inl (by omega)
    simp [parseStrAux, hex4, hv, hcond, Char.ofNat_toNat]
  by_cases h9 : c.toNat < 0x7f
  · rw [show escChar c = [c] from by simp [escChar, h1, h2, h3, h4, h5, h6, h7, h8, h9]]
    simp [parseStrAux, h1, h2]
  by_cases h10 : c.toNat < 0x10000
  · rw [show escChar c = '\\' :: 'u' :: hex4 c.toNat from by
      simp [escChar, h1, h2, h3, h4, h5, h6, h7, h8, h9, h10]]
    have hv := hex4_val_eq c.toNat (by omega)
    have hcond := char_not_surrogate c
    simp [parseStrAux, hex4, hv, hcond, Char.ofNat_toNat]
  · obtain ⟨q, hqdef⟩ : ∃ q, (c.toNat - 0x10000) / 0x400 = q := ⟨_, rfl⟩
    obtain ⟨r, hrdef⟩ : ∃ r, (c.toNat - 0x10000) % 0x400 = r := ⟨_, rfl⟩
    have hlt := char_toNat_lt c
    have hq : q < 0x400 := by omega
    have hr : r < 0x400 := by rw [← hrdef]; omega
    have hqr : q * 0x400 + r = c.toNat - 0x10000 := by
      rw [← hqdef, ← hrdef]
      omega
    rw [show escChar c
        = ('\\' :: 'u' :: hex4 (0xd800 + q)) ++ ('\\' :: 'u' :: hex4 (0xdc00 + r)) from by
      simp [escChar, h1, h2, h3, h4, h5, h6, h7, h8, h9, h10, hqdef, hrdef]]
    have hvHi := hex4_val_eq (0xd800 + q) (by omega)
    have hvLo := hex4_val_eq (0xdc00 + r) (by omega)
    have hA : ¬(0xd800 + q < 0xd800 ∨ 0xe000 ≤ 0xd800 + q) := by omega
    have hB : 0xd800 + q < 0xdc00 := by omega
    have hC : 0xdc00 ≤ 0xdc00 + r := by omega
    have hD : 0xdc00 + r < 0xe000 := by omega
    have hcomb : 0x10000 + (0xd800 + q - 0xd800) * 0x400 + (0xdc00 + r - 0xdc00)
        = c.toNat := by omega
    have hA2 : ¬(0xe000 ≤ 0xd800 + q) := by omega
    have hcomb2 : 0x10000 + q * 0x400 + r = c.toNat := by omega
    simp [parseStrAux, hex4, hvHi, hvLo, hA, hA2, hB, hC, hD, hcomb, hcomb2,
      Char.ofNat_toNat]

theorem escString_length (l : List Char) : l.length ≤ ((l.map escChar).flatten).length := by
  induction l with
  | nil => simp
  | cons c l ih =>
    have hne : escChar c ≠ [] := by
      unfold escChar
      repeat' split
      all_goals simp [hex4]
    have hc : 1 ≤ (escChar c).length := List.length_pos.mpr hne
    simp only [List.map_cons, List.flatten_cons, List.length_cons, List.length_append]
    omega

/-- The escape of a whole string, followed by the closing quote, scans back
to exactly that string. -/
theorem parseStrAux_escString (l : List Char) :
    ∀ (fuel : Nat) (rest : List Char), l.length < fuel →
      parseStrAux fuel ((l.map escChar).flatten ++ '"' :: rest) = some (l, rest) := by
  induction l with
  | nil =>
    intro fuel rest hf
    match fuel, hf with
    | f + 1, _ => rfl
  | cons c l ih =>
    intro fuel rest hf
    match fuel, hf with
    | f + 1, hf2 =>
      simp only [List.map_cons, List.flatten_cons, List.append_assoc]
      rw [parseStrAux_esc, ih f rest (by simp at hf2; omega)]
      rfl

/-! ### C7 stage B: integer literals round-trip -/

theorem toNat_ofNat_small (n : Nat) (h : n < 0xd800) : (Char.ofNat n).toNat = n :=
  toNat_ofNat_valid n (Or.inl h)

theorem natChars_digits (n : Nat) : ∀ c ∈ natChars n, digitCh c = true := by
  induction n using Nat.strong_induction_on with
  | _ n ih =>
    intro c hc
    rw [natChars] at hc
    split at hc
    · rename_i h
      simp only [List.mem_singleton] at hc
      subst hc
      simp only [digitCh, toNat_ofNat_small (48 + n) (by omega), decide_eq_true_eq]
      omega
    · rename_i h
      rcases List.mem_append.mp hc with hm | hm
      · exact ih (n / 10) (Nat.div_lt_self (by omega) (by omega)) c hm
      · simp only [List.mem_singleton] at hm
        subst hm
        simp only [digitCh, toNat_ofNat_small (48 + n % 10) (by omega), decide_eq_true_eq]
        omega

theorem natChars_val (n : Nat) :
    (natChars n).foldl (fun a c => a * 10 + (c.toNat - 48)) 0 = n := by
  induction n using Nat.strong_induction_on with
  | _ n ih =>
    rw [natChars]
    split
    · rename_i h
      simp [toNat_ofNat_small (48 + n) (by omega)]
    · rename_i h
      rw [List.foldl_append, ih (n / 10) (Nat.div_lt_self (by omega) (by omega))]
      simp [toNat_ofNat_small (48 + n % 10) (by omega)]
      omega

theorem natChars_head (n : Nat) : ∃ d t, natChars n = d :: t ∧ digitCh d = true := by
  rcases h : natChars n with _ | ⟨d, t⟩
  · exact absurd h (natChars_ne_nil n)
  · exact ⟨d, t, rfl, natChars_digits n d (h ▸ List.mem_cons_self d t)⟩

theorem takeWhile_all_append (p : Char → Bool) (xs rest : List Char)
    (hxs : ∀ c ∈ xs, p c = true)
    (hrest : match rest with | [] => True | c :: _ => p c = false) :
    (xs ++ rest).takeWhile p = xs ∧ (xs ++ rest).dropWhile p = rest := by
  induction xs with
  | nil =>
    cases rest with
    | nil => exact ⟨rfl, rfl⟩
    | cons c t =>
      simp only at hrest
      simp [List.takeWhile_cons, List.dropWhile_cons, hrest]
  | cons x xs ih =>
    have hx : p x = true := hxs x (List.mem_cons_self x xs)
    have ih2 := ih (fun c hc => hxs c (List.mem_cons_of_mem _ hc))
    simp [List.takeWhile_cons, List.dropWhile_cons, hx, ih2.1, ih2.2]

theorem parseNat_natChars (n : Nat) (rest : List Char) (h : headNotDigit rest) :
    parseNatChars (natChars n ++ rest) = some (n, rest) := by
  have tw := takeWhile_all_append digitCh (natChars n) rest (natChars_digits n)
    (by cases rest with
        | nil => trivial
        | cons c t => exact h)
  unfold parseNatChars
  rw [tw.1, tw.2]
  rw [if_neg (by simp [natChars_ne_nil n])]
  rw [natChars_val]

theorem parseInt_intChars (n : Int) (rest : List Char) (h : headNotDigit rest) :
    parseIntChars (intChars n ++ rest) = some (n, rest) := by
  unfold intChars
  split
  · rename_i hneg
    simp only [List.cons_append, parseIntChars]
    rw [parseNat_natChars _ _ h]
    simp only [eq_self_iff_true, if_true, ite_true, Option.map_some', Option.some.injEq,
      Prod.mk.injEq]
    exact ⟨by omega, trivial⟩
  · rename_i hpos
    obtain ⟨d, t, hdt, hd⟩ := natChars_head n.toNat
    rw [hdt]
    simp only [List.cons_append, parseIntChars]
    rw [if_neg (by
      intro he
      rw [he] at hd
      exact absurd hd (by decide))]
    rw [show d :: (t ++ rest) = natChars n.toNat ++ rest from by rw [hdt]; rfl]
    rw [parseNat_natChars _ _ h]
    simp only [Option.map_some', Option.some.injEq, Prod.mk.injEq]
    exact ⟨by omega, trivial⟩

/-! ### C7 stage C: the value parser inverts the serializer -/

theorem mk_data (s : String) : String.mk s.data = s := rfl

theorem digit_ne (c : Char) (hd : digitCh c = true) :
    c ≠ 'n' ∧ c ≠ 't' ∧ c ≠ 'f' ∧ c ≠ '"' ∧ c ≠ '[' ∧ c ≠ '\x7b' := by
  refine ⟨?_, ?_, ?_, ?_, ?_, ?_⟩
  all_goals intro he
  all_goals rw [he] at hd
  all_goals exact absurd hd (by decide)

theorem dumpsJ_head (j : Json) : ∃ c t, dumpsJ j = c :: t ∧ c ≠ ' ' ∧ c ≠ ']' := by
  cases j with
  | jnull => exact ⟨'n', _, rfl, by decide, by decide⟩
  | jbool b =>
    cases b with
    | false => exact ⟨'f', _, rfl, by decide, by decide⟩
    | true => exact ⟨'t', _, rfl, by decide, by decide⟩
  | jnum n =>
    by_cases hn : n < 0
    · exact ⟨'-', natChars (-n).toNat, by simp [dumpsJ, intChars, hn], by decide, by decide⟩
    · obtain ⟨d, t, hdt, hd⟩ := natChars_head n.toNat
      refine ⟨d, t, by simp [dumpsJ, intChars, hn, hdt], ?_, ?_⟩
      · intro he
        rw [he] at hd
        exact absurd hd (by decide)
      · intro he
        rw [he] at hd
        exact absurd hd (by decide)
  | jstr s => exact ⟨'"', _, rfl, by decide, by decide⟩
  | jarr xs => exact ⟨'[', _, rfl, by decide, by decide⟩
  | jobj kvs => exact ⟨'\x7b', _, rfl, by decide, by decide⟩

theorem dumpsJ_ne_nil (j : Json) : dumpsJ j ≠ [] := by
  obtain ⟨c, t, h, -, -⟩ := dumpsJ_head j
  rw [h]
  simp

theorem dumpsArr_head (x : Json) (xs : List Json) :
    ∃ c t, dumpsArr (x :: xs) = c :: t ∧ c ≠ ' ' ∧ c ≠ ']' := by
  obtain ⟨c, t, h, hs, hb⟩ := dumpsJ_head x
  cases xs with
  | nil => exact ⟨c, t, by simp [dumpsArr, h], hs, hb⟩
  | cons y ys =>
    exact ⟨c, t ++ ',' :: ' ' :: dumpsArr (y :: ys), by simp [dumpsArr, h], hs, hb⟩

theorem dumpsObj_head (kv : String × Json) (kvs : List (String × Json)) :
    ∃ t, dumpsObj (kv :: kvs) = '"' :: t := by
  obtain ⟨k, v⟩ := kv
  cases kvs with
  | nil => exact ⟨_, rfl⟩
  | cons kv2 kvs2 => exact ⟨_, rfl⟩

theorem skipSp_space (l : List Char) : skipSp (' ' :: l) = skipSp l := rfl

theorem skipSp_nospace (c : Char) (t : List Char) (h : c ≠ ' ') : skipSp (c :: t) = c :: t := by
  simp [skipSp, List.dropWhile_cons, h]

theorem parseVal_num_step (fuel : Nat) (c : Char) (rest : List Char)
    (h : c = '-' ∨ digitCh c = true) :
    parseVal (fuel + 1) (c :: rest)
      = (parseIntChars (c :: rest)).map (fun p => (Json.jnum p.1, p.2)) := by
  have hne : c ≠ 'n' ∧ c ≠ 't' ∧ c ≠ 'f' ∧ c ≠ '"' ∧ c ≠ '[' ∧ c ≠ '\x7b' := by
    rcases h with h | h
    · subst h
      refine ⟨by decide, by decide, by decide, by decide, by decide, by decide⟩
    · exact digit_ne c h
  simp only [parseVal]
  rw [if_neg hne.1, if_neg hne.2.1, if_neg hne.2.2.1, if_neg hne.2.2.2.1,
    if_neg hne.2.2.2.2.1, if_neg hne.2.2.2.2.2, if_pos h]

/-- The mutual inversion: with enough fuel (the dumped text's length), the
value parser, the element parser, and the member parser each read back
exactly what `dumpsJ` / `dumpsArr` / `dumpsObj` produced, leaving the rest
of the input untouched. The number side condition keeps maximal-munch
integer literals from swallowing a digit of the continuation. -/
theorem parse_dumps (fuel : Nat) :
    (∀ (j : Json) (rest : List Char), (dumpsJ j).length ≤ fuel →
      (∀ n, j = Json.jnum n → headNotDigit rest) →
      parseVal fuel (dumpsJ j ++ rest) = some (j, rest)) ∧
    (∀ (xs : List Json) (rest : List Char), xs ≠ [] → (dumpsArr xs).length + 1 ≤ fuel →
      parseElems fuel (dumpsArr xs ++ ']' :: rest) = some (xs, rest)) ∧
    (∀ (kvs : List (String × Json)) (rest : List Char), kvs ≠ [] →
      (dumpsObj kvs).length + 1 ≤ fuel →
      parseMembers fuel (dumpsObj kvs ++ '\x7d' :: rest) = some (kvs, rest)) := by
  induction fuel with
  | zero =>
    refine ⟨?_, ?_, ?_⟩
    · intro j rest hlen _
      have := dumpsJ_ne_nil j
      have hpos : 0 < (dumpsJ j).length := List.length_pos.mpr this
      omega
    · intro xs rest _ hlen
      omega
    · intro kvs rest _ hlen
      omega
  | succ fuel ih =>
    obtain ⟨ihP, ihQ, ihR⟩ := ih
    have stepStr : ∀ X, parseVal (fuel + 1) ('"' :: X)
        = (parseStrAux fuel X).map (fun pr => (Json.jstr (String.mk pr.1), pr.2)) :=
      fun X => rfl
    have stepArr : ∀ (c2 : Char) (r2 : List Char), c2 ≠ ']' →
        parseVal (fuel + 1) ('[' :: c2 :: r2)
          = (parseElems fuel (c2 :: r2)).map (fun pr => (Json.jarr pr.1, pr.2)) := by
      intro c2 r2 hc2
      rw [show parseVal (fuel + 1) ('[' :: c2 :: r2)
          = if c2 = ']' then some (Json.jarr [], r2)
            else (parseElems fuel (c2 :: r2)).map (fun pr => (Json.jarr pr.1, pr.2))
          from rfl]
      rw [if_neg hc2]
    have stepObj : ∀ (c2 : Char) (r2 : List Char), c2 ≠ '\x7d' →
        parseVal (fuel + 1) ('\x7b' :: c2 :: r2)
          = (parseMembers fuel (c2 :: r2)).map (fun pr => (Json.jobj pr.1, pr.2)) := by
      intro c2 r2 hc2
      rw [show parseVal (fuel + 1) ('\x7b' :: c2 :: r2)
          = if c2 = '\x7d' then some (Json.jobj [], r2)
            else (parseMembers fuel (c2 :: r2)).map (fun pr => (Json.jobj pr.1, pr.2))
          from rfl]
      rw [if_neg hc2]
    refine ⟨?_, ?_, ?_⟩
    · intro j rest hlen hnum
      cases j with
      | jnull => rfl
      | jbool b => cases b <;> rfl
      | jnum n =>
        have hnd : headNotDigit rest := hnum n rfl
        show parseVal (fuel + 1) (intChars n ++ rest) = _
        by_cases hneg : n < 0
        · rw [show intChars n = '-' :: natChars (-n).toNat from by simp [intChars, hneg]]
          rw [List.cons_append,
            parseVal_num_step fuel '-' (natChars (-n).toNat ++ rest) (Or.inl rfl),
            show '-' :: (natChars (-n).toNat ++ rest) = intChars n ++ rest from by
              simp [intChars, hneg],
            parseInt_intChars n rest hnd]
          rfl
        · obtain ⟨d, t, hdt, hd⟩ := natChars_head n.toNat
          rw [show intChars n = natChars n.toNat from by simp [intChars, hneg], hdt,
            List.cons_append, parseVal_num_step fuel d (t ++ rest) (Or.inr hd),
            show d :: (t ++ rest) = intChars n ++ rest from by
              simp [intChars, hneg, hdt],
            parseInt_intChars n rest hnd]
          rfl
      | jstr s =>
        have hlen2 : s.data.length < fuel := by
          have he := escString_length s.data
          simp only [dumpsJ, escString, List.length_cons, List.length_append,
            List.length_singleton] at hlen
          omega
        show parseVal (fuel + 1) (('"' :: (escString s ++ ['"'])) ++ rest) = _
        rw [show ('"' :: (escString s ++ ['"'])) ++ rest
            = '"' :: (escString s ++ '"' :: rest) from by simp]
        rw [stepStr]
        unfold escString
        rw [parseStrAux_escString s.data fuel rest hlen2]
        simp [mk_data]
      | jarr xs =>
        cases xs with
        | nil => rfl
        | cons x xs' =>
          obtain ⟨c2, t2, hshape, hsp, hbr⟩ := dumpsArr_head x xs'
          show parseVal (fuel + 1) (('[' :: (dumpsArr (x :: xs') ++ [']'])) ++ rest) = _
          rw [show ('[' :: (dumpsArr (x :: xs') ++ [']'])) ++ rest
              = '[' :: (dumpsArr (x :: xs') ++ ']' :: rest) from by simp]
          rw [hshape, List.cons_append, stepArr c2 _ hbr, ← List.cons_append, ← hshape]
          rw [ihQ (x :: xs') rest (by simp)
            (by simp only [dumpsJ, List.length_cons, List.length_append,
                  List.length_singleton] at hlen
                omega)]
          rfl
      | jobj kvs =>
        cases kvs with
        | nil => rfl
        | cons kv kvs' =>
          obtain ⟨t2, hshape⟩ := dumpsObj_head kv kvs'
          show parseVal (fuel + 1) (('\x7b' :: (dumpsObj (kv :: kvs') ++ ['\x7d'])) ++ rest) = _
          rw [show ('\x7b' :: (dumpsObj (kv :: kvs') ++ ['\x7d'])) ++ rest
              = '\x7b' :: (dumpsObj (kv :: kvs') ++ '\x7d' :: rest) from by simp]
          rw [hshape, List.cons_append, stepObj '"' _ (by decide), ← List.cons_append,
            ← hshape]
          rw [ihR (kv :: kvs') rest (by simp)
            (by simp only [dumpsJ, List.length_cons, List.length_append,
                  List.length_singleton] at hlen
                omega)]
          rfl
    · intro xs rest hxs hlen
      cases xs with
      | nil => exact absurd rfl hxs
      | cons x xs' =>
        cases xs' with
        | nil =>
          show parseElems (fuel + 1) (dumpsJ x ++ ']' :: rest) = _
          simp only [parseElems]
          rw [ihP x (']' :: rest)
            (by simpa [dumpsArr] using Nat.le_of_succ_le_succ hlen)
            (by intro n _; show digitCh ']' = false; decide)]
          rfl
        | cons y ys =>
          show parseElems (fuel + 1)
            ((dumpsJ x ++ ',' :: ' ' :: dumpsArr (y :: ys)) ++ ']' :: rest) = _
          have hlens : (dumpsArr (x :: y :: ys)).length
              = (dumpsJ x).length + 2 + (dumpsArr (y :: ys)).length := by
            simp [dumpsArr]
            omega
          rw [show (dumpsJ x ++ ',' :: ' ' :: dumpsArr (y :: ys)) ++ ']' :: rest
              = dumpsJ x ++ ',' :: ' ' :: (dumpsArr (y :: ys) ++ ']' :: rest) from by simp]
          simp only [parseElems]
          rw [ihP x (',' :: ' ' :: (dumpsArr (y :: ys) ++ ']' :: rest))
            (by omega)
            (by intro n _; show digitCh ',' = false; decide)]
          simp only
          rw [show skipSp (' ' :: (dumpsArr (y :: ys) ++ ']' :: rest))
              = dumpsArr (y :: ys) ++ ']' :: rest from by
            rw [skipSp_space]
            obtain ⟨c2, t2, hshape, hsp, -⟩ := dumpsArr_head y ys
            rw [hshape, List.cons_append, skipSp_nospace c2 _ hsp]]
          rw [ihQ (y :: ys) rest (by simp) (by omega)]
          rfl
    · intro kvs rest hkvs hlen
      cases kvs with
      | nil => exact absurd rfl hkvs
      | cons kv kvs' =>
        obtain ⟨k, v⟩ := kv
        have hkey : k.data.length < fuel ∧ (dumpsJ v).length ≤ fuel := by
          have he := escString_length k.data
          have hv := List.length_pos.mpr (dumpsJ_ne_nil v)
          cases kvs' with
          | nil =>
            simp only [dumpsObj, escString, List.length_cons, List.length_append,
              List.length_singleton] at hlen
            omega
          | cons kv2 kvs2 =>
            simp only [dumpsObj, escString, List.length_cons, List.length_append,
              List.length_singleton] at hlen
            omega
        cases kvs' with
        | nil =>
          show parseMembers (fuel + 1)
            (('"' :: (escString k ++ '"' :: ':' :: ' ' :: dumpsJ v)) ++ '\x7d' :: rest) = _
          rw [show ('"' :: (escString k ++ '"' :: ':' :: ' ' :: dumpsJ v)) ++ '\x7d' :: rest
              = '"' :: (escString k ++ '"' :: (':' :: ' ' :: (dumpsJ v ++ '\x7d' :: rest)))
              from by simp]
          simp only [parseMembers]
          unfold escString
          rw [parseStrAux_escString k.data fuel _ hkey.1]
          simp only
          rw [show skipSp (' ' :: (dumpsJ v ++ '\x7d' :: rest))
              = dumpsJ v ++ '\x7d' :: rest from by
            rw [skipSp_space]
            obtain ⟨c2, t2, hshape, hsp, -⟩ := dumpsJ_head v
            rw [hshape, List.cons_append, skipSp_nospace c2 _ hsp]]
          rw [ihP v ('\x7d' :: rest) hkey.2
            (by intro n _; show digitCh '\x7d' = false; decide)]
          simp [mk_data]
        | cons kv2 kvs2 =>
          show parseMembers (fuel + 1)
            ((('"' :: (escString k ++ '"' :: ':' :: ' ' :: dumpsJ v))
              ++ ',' :: ' ' :: dumpsObj (kv2 :: kvs2)) ++ '\x7d' :: rest) = _
          have hlens : (dumpsObj ((k, v) :: kv2 :: kvs2)).length
              = (escString k).length + 4 + (dumpsJ v).length + 2
                + (dumpsObj (kv2 :: kvs2)).length := by
            simp [dumpsObj]
            omega
          rw [show (('"' :: (escString k ++ '"' :: ':' :: ' ' :: dumpsJ v))
              ++ ',' :: ' ' :: dumpsObj (kv2 :: kvs2)) ++ '\x7d' :: rest
              = '"' :: (escString k ++ '"' ::
                  (':' :: ' ' :: (dumpsJ v ++
                    ',' :: ' ' :: (dumpsObj (kv2 :: kvs2) ++ '\x7d' :: rest))))
              from by simp]
          simp only [parseMembers]
          unfold escString
          rw [parseStrAux_escString k.data fuel _ hkey.1]
          simp only
          rw [show skipSp (' ' :: (dumpsJ v ++
                ',' :: ' ' :: (dumpsObj (kv2 :: kvs2) ++ '\x7d' :: rest)))
              = dumpsJ v ++ ',' :: ' ' :: (dumpsObj (kv2 :: kvs2) ++ '\x7d' :: rest) from by
            rw [skipSp_space]
            obtain ⟨c2, t2, hshape, hsp, -⟩ := dumpsJ_head v
            rw [hshape, List.cons_append, skipSp_nospace c2 _ hsp]]
          rw [ihP v (',' :: ' ' :: (dumpsObj (kv2 :: kvs2) ++ '\x7d' :: rest)) hkey.2
            (by intro n _; show digitCh ',' = false; decide)]
          simp only
          rw [show skipSp (' ' :: (dumpsObj (kv2 :: kvs2) ++ '\x7d' :: rest))
              = dumpsObj (kv2 :: kvs2) ++ '\x7d' :: rest from by
            rw [skipSp_space]
            obtain ⟨t3, hshape⟩ := dumpsObj_head kv2 kvs2
            rw [hshape, List.cons_append, skipSp_nospace '"' _ (by decide)]]
          rw [ihR (kv2 :: kvs2) rest (by simp) (by omega)]
          simp [mk_data]

/-- A complete serialized document parses back to exactly the value. -/
theorem parseJsonChars_dumpsJ (j : Json) : parseJsonChars (dumpsJ j) = some j := by
  unfold parseJsonChars
  have h := (parse_dumps ((dumpsJ j).length + 1)).1 j [] (by omega)
    (by intro n _; trivial)
  rw [List.append_nil] at h
  rw [h]

/-! ### C7 stage D: UTF-8 encode/decode round-trip -/

theorem utf8Char_bytes_lt (c : Char) : ∀ b ∈ utf8Char c, b < 256 := by
  intro b hb
  have hlt := char_toNat_lt c
  by_cases h1 : c.toNat < 0x80
  · rw [show utf8Char c = [c.toNat] from by simp [utf8Char, h1]] at hb
    simp at hb
    omega
  by_cases h2 : c.toNat < 0x800
  · rw [show utf8Char c = [0xc0 + c.toNat / 0x40, 0x80 + c.toNat % 0x40] from by
      simp [utf8Char, h1, h2]] at hb
    simp at hb
    rcases hb with hb | hb <;> omega
  by_cases h3 : c.toNat < 0x10000
  · rw [show utf8Char c
        = [0xe0 + c.toNat / 0x1000, 0x80 + c.toNat / 0x40 % 0x40, 0x80 + c.toNat % 0x40]
      from by simp [utf8Char, h1, h2, h3]] at hb
    simp at hb
    rcases hb with hb | hb | hb <;> omega
  · rw [show utf8Char c
        = [0xf0 + c.toNat / 0x40000, 0x80 + c.toNat / 0x1000 % 0x40,
           0x80 + c.toNat / 0x40 % 0x40, 0x80 + c.toNat % 0x40]
      from by simp [utf8Char, h1, h2, h3]] at hb
    simp at hb
    rcases hb with hb | hb | hb | hb <;> omega

theorem utf8Encode_lt (l : List Char) : ∀ b ∈ utf8Encode l, b < 256 := by
  induction l with
  | nil => simp [utf8Encode]
  | cons c l ih =>
    intro b hb
    simp only [utf8Encode, List.map_cons, List.flatten_cons] at hb
    rcases List.mem_append.mp hb with hm | hm
    · exact utf8Char_bytes_lt c b hm
    · exact ih b (by simpa [utf8Encode] using hm)

theorem utf8Char_step (c : Char) (rest : List Nat) (fuel : Nat) :
    utf8DecodeAux (fuel + 1) (utf8Char c ++ rest)
      = (utf8DecodeAux fuel rest).map (fun cs => c :: cs) := by
  have hlt := char_toNat_lt c
  have hsur := char_not_surrogate c
  by_cases h1 : c.toNat < 0x80
  · rw [show utf8Char c = [c.toNat] from by simp [utf8Char, h1]]
    simp [utf8DecodeAux, h1, Char.ofNat_toNat]
  by_cases h2 : c.toNat < 0x800
  · rw [show utf8Char c = [0xc0 + c.toNat / 0x40, 0x80 + c.toNat % 0x40] from by
      simp [utf8Char, h1, h2]]
    have hb1a : ¬(0xc0 + c.toNat / 0x40 < 0x80) := by omega
    have hb1b : ¬(0xc0 + c.toNat / 0x40 < 0xc2) := by omega
    have hb1c : 0xc0 + c.toNat / 0x40 < 0xe0 := by omega
    have hb2 : 0x80 ≤ 0x80 + c.toNat % 0x40 ∧ 0x80 + c.toNat % 0x40 < 0xc0 := by omega
    have hval : (0xc0 + c.toNat / 0x40 - 0xc0) * 0x40 + (0x80 + c.toNat % 0x40 - 0x80)
        = c.toNat := by omega
    have hval2 : c.toNat / 0x40 * 0x40 + c.toNat % 0x40 = c.toNat := by omega
    simp [utf8DecodeAux, hb1a, hb1b, hb1c, hb2, hval, hval2, Char.ofNat_toNat]
  by_cases h3 : c.toNat < 0x10000
  · rw [show utf8Char c
        = [0xe0 + c.toNat / 0x1000, 0x80 + c.toNat / 0x40 % 0x40, 0x80 + c.toNat % 0x40]
      from by simp [utf8Char, h1, h2, h3]]
    have hb1a : ¬(0xe0 + c.toNat / 0x1000 < 0x80) := by omega
    have hb1b : ¬(0xe0 + c.toNat / 0x1000 < 0xc2) := by omega
    have hb1c : ¬(0xe0 + c.toNat / 0x1000 < 0xe0) := by omega
    have hb1d : 0xe0 + c.toNat / 0x1000 < 0xf0 := by omega
    have hb2 : 0x80 ≤ 0x80 + c.toNat / 0x40 % 0x40 ∧ 0x80 + c.toNat / 0x40 % 0x40 < 0xc0 := by
      omega
    have hb3 : 0x80 ≤ 0x80 + c.toNat % 0x40 ∧ 0x80 + c.toNat % 0x40 < 0xc0 := by omega
    have hval : (0xe0 + c.toNat / 0x1000 - 0xe0) * 0x1000
        + (0x80 + c.toNat / 0x40 % 0x40 - 0x80) * 0x40 + (0x80 + c.toNat % 0x40 - 0x80)
        = c.toNat := by omega
    have hval2 : c.toNat / 0x1000 * 0x1000 + c.toNat / 0x40 % 0x40 * 0x40 + c.toNat % 0x40
        = c.toNat := by omega
    have hrange2 : 0x800 ≤ c.toNat / 0x1000 * 0x1000 + c.toNat / 0x40 % 0x40 * 0x40
          + c.toNat % 0x40 ∧
        (c.toNat / 0x1000 * 0x1000 + c.toNat / 0x40 % 0x40 * 0x40 + c.toNat % 0x40 < 0xd800 ∨
         0xe000 ≤ c.toNat / 0x1000 * 0x1000 + c.toNat / 0x40 % 0x40 * 0x40 + c.toNat % 0x40) := by
      rw [hval2]
      exact ⟨by omega, hsur⟩
    have h2b : 0x800 ≤ c.toNat := by omega
    simp [utf8DecodeAux, hb1a, hb1b, hb1c, hb1d, hb2, hb3, hrange2, hval, hval2, h2b, hsur,
      Char.ofNat_toNat]
  · rw [show utf8Char c
        = [0xf0 + c.toNat / 0x40000, 0x80 + c.toNat / 0x1000 % 0x40,
           0x80 + c.toNat / 0x40 % 0x40, 0x80 + c.toNat % 0x40]
      from by simp [utf8Char, h1, h2, h3]]
    have hb1a : ¬(0xf0 + c.toNat / 0x40000 < 0x80) := by omega
    have hb1b : ¬(0xf0 + c.toNat / 0x40000 < 0xc2) := by omega
    have hb1c : ¬(0xf0 + c.toNat / 0x40000 < 0xe0) := by omega
    have hb1d : ¬(0xf0 + c.toNat / 0x40000 < 0xf0) := by omega
    have hb1e : 0xf0 + c.toNat / 0x40000 < 0xf5 := by omega
    have hb2 : 0x80 ≤ 0x80 + c.toNat / 0x1000 % 0x40 ∧ 0x80 + c.toNat / 0x1000 % 0x40 < 0xc0 := by
      omega
    have hb3 : 0x80 ≤ 0x80 + c.toNat / 0x40 % 0x40 ∧ 0x80 + c.toNat / 0x40 % 0x40 < 0xc0 := by
      omega
    have hb4 : 0x80 ≤ 0x80 + c.toNat % 0x40 ∧ 0x80 + c.toNat % 0x40 < 0xc0 := by omega
    have hval : (0xf0 + c.toNat / 0x40000 - 0xf0) * 0x40000
        + (0x80 + c.toNat / 0x1000 % 0x40 - 0x80) * 0x1000
        + (0x80 + c.toNat / 0x40 % 0x40 - 0x80) * 0x40 + (0x80 + c.toNat % 0x40 - 0x80)
        = c.toNat := by omega
    have hval2 : c.toNat / 0x40000 * 0x40000 + c.toNat / 0x1000 % 0x40 * 0x1000
        + c.toNat / 0x40 % 0x40 * 0x40 + c.toNat % 0x40 = c.toNat := by omega
    have hrange2 : 0x10000 ≤ c.toNat / 0x40000 * 0x40000 + c.toNat / 0x1000 % 0x40 * 0x1000
          + c.toNat / 0x40 % 0x40 * 0x40 + c.toNat % 0x40 ∧
        c.toNat / 0x40000 * 0x40000 + c.toNat / 0x1000 % 0x40 * 0x1000
          + c.toNat / 0x40 % 0x40 * 0x40 + c.toNat % 0x40 < 0x110000 := by
      rw [hval2]
      exact ⟨by omega, by omega⟩
    have h3b : 0x10000 ≤ c.toNat := by omega
    simp [utf8DecodeAux, hb1a, hb1b, hb1c, hb1d, hb1e, hb2, hb3, hb4, hrange2, hval, hval2,
      h3b, hlt, Char.ofNat_toNat]

theorem utf8Char_ne_nil (c : Char) : utf8Char c ≠ [] := by
  by_cases h1 : c.toNat < 0x80
  · rw [show utf8Char c = [c.toNat] from by simp [utf8Char, h1]]
    simp
  by_cases h2 : c.toNat < 0x800
  · rw [show utf8Char c = [0xc0 + c.toNat / 0x40, 0x80 + c.toNat % 0x40] from by
      simp [utf8Char, h1, h2]]
    simp
  by_cases h3 : c.toNat < 0x10000
  · rw [show utf8Char c
        = [0xe0 + c.toNat / 0x1000, 0x80 + c.toNat / 0x40 % 0x40, 0x80 + c.toNat % 0x40]
      from by simp [utf8Char, h1, h2, h3]]
    simp
  · rw [show utf8Char c
        = [0xf0 + c.toNat / 0x40000, 0x80 + c.toNat / 0x1000 % 0x40,
           0x80 + c.toNat / 0x40 % 0x40, 0x80 + c.toNat % 0x40]
      from by simp [utf8Char, h1, h2, h3]]
    simp

theorem utf8Encode_length (l : List Char) : l.length ≤ (utf8Encode l).length := by
  induction l with
  | nil => simp [utf8Encode]
  | cons c l ih =>
    have hc : 1 ≤ (utf8Char c).length := List.length_pos.mpr (utf8Char_ne_nil c)
    simp only [utf8Encode, List.map_cons, List.flatten_cons, List.length_cons,
      List.length_append] at *
    omega

theorem utf8DecodeAux_encode (l : List Char) :
    ∀ fuel, l.length < fuel → utf8DecodeAux fuel (utf8Encode l) = some l := by
  induction l with
  | nil =>
    intro fuel hf
    match fuel, hf with
    | f + 1, _ => rfl
  | cons c l ih =>
    intro fuel hf
    match fuel, hf with
    | f + 1, hf2 =>
      rw [show (utf8Encode (c :: l) : List Nat) = utf8Char c ++ utf8Encode l from by
        simp [utf8Encode]]
      rw [utf8Char_step, ih f (by simp at hf2; omega)]
      rfl

theorem utf8Decode_encode (l : List Char) : utf8Decode (utf8Encode l) = some l := by
  unfold utf8Decode
  exact utf8DecodeAux_encode l _ (by have := utf8Encode_length l; omega)

/-! ### C7 stage E: base64 round-trip -/

theorem b64CharVal_b64Char : ∀ n, n < 64 → b64CharVal (b64Char n) = some n := by decide

theorem b64Char_ne_pad : ∀ n, n < 64 → b64Char n ≠ '=' := by decide

theorem b64_roundtrip :
    ∀ bs : List Nat, (∀ b ∈ bs, b < 256) → b64decode (b64encode bs) = some bs
  | [], _ => rfl
  | [a], h => by
    have ha : a < 256 := h a (by simp)
    show b64decode [b64Char (a / 4), b64Char (a % 4 * 16), '=', '='] = some [a]
    simp only [b64decode, b64CharVal_b64Char (a / 4) (by omega),
      b64CharVal_b64Char (a % 4 * 16) (by omega)]
    rw [if_pos (by simp)]
    simp only [Option.some.injEq, List.cons.injEq, and_true]
    omega
  | [a, b], h => by
    have ha : a < 256 := h a (by simp)
    have hb : b < 256 := h b (by simp)
    show b64decode [b64Char (a / 4), b64Char (a % 4 * 16 + b / 16), b64Char (b % 16 * 4), '=']
        = some [a, b]
    simp only [b64decode, b64CharVal_b64Char (a / 4) (by omega),
      b64CharVal_b64Char (a % 4 * 16 + b / 16) (by omega),
      b64CharVal_b64Char (b % 16 * 4) (by omega)]
    rw [if_neg (fun hh => absurd hh.1 (b64Char_ne_pad (b % 16 * 4) (by omega)))]
    rw [if_pos (by simp)]
    simp only [Option.some.injEq, List.cons.injEq, and_true]
    exact ⟨by omega, by omega⟩
  | a :: b :: c :: rest, h => by
    have ha : a < 256 := h a (by simp)
    have hb : b < 256 := h b (by simp)
    have hc : c < 256 := h c (by simp)
    have hrest : ∀ x ∈ rest, x < 256 := fun x hx => h x (by simp [hx])
    show b64decode (b64Char (a / 4) :: b64Char (a % 4 * 16 + b / 16)
        :: b64Char (b % 16 * 4 + c / 64) :: b64Char (c % 64) :: b64encode rest)
      = some (a :: b :: c :: rest)
    simp only [b64decode, b64CharVal_b64Char (a / 4) (by omega),
      b64CharVal_b64Char (a % 4 * 16 + b / 16) (by omega),
      b64CharVal_b64Char (b % 16 * 4 + c / 64) (by omega),
      b64CharVal_b64Char (c % 64) (by omega)]
    rw [if_neg (fun hh => absurd hh.1 (b64Char_ne_pad (b % 16 * 4 + c / 64) (by omega)))]
    rw [if_neg (fun hh => absurd hh.1 (b64Char_ne_pad (c % 64) (by omega)))]
    rw [b64_roundtrip rest hrest]
    simp only [Option.map_some', Option.some.injEq, List.cons.injEq]
    refine ⟨by omega, by omega, by omega, ?_⟩
    trivial

/-! ### C7 stage F: percent-encoding round-trip -/

theorem hexUpper_val : ∀ d, d < 16 → hexDigitVal (toHexUpper d) = some d := by decide

theorem safeByte_facts (b : Nat) (h : safeByte b = true) : b ≠ 43 ∧ b ≠ 37 ∧ b ≠ 32 := by
  simp only [safeByte, decide_eq_true_eq] at h
  omega

theorem quoteByte_step (b : Nat) (hb : b < 256) (rest : List Char) (fuel : Nat) :
    unquotePlusAux (fuel + 1) (quoteByte b ++ rest)
      = (unquotePlusAux fuel rest).map (fun bs => b :: bs) := by
  by_cases hs : safeByte b = true
  · rw [show quoteByte b = [Char.ofNat b] from by simp [quoteByte, hs]]
    have ht := toNat_ofNat_small b (by omega)
    have hf := safeByte_facts b hs
    have hplus : Char.ofNat b ≠ '+' := by
      intro he
      rw [he] at ht
      exact hf.1 (by simpa using ht.symm)
    have hpct : Char.ofNat b ≠ '%' := by
      intro he
      rw [he] at ht
      exact hf.2.1 (by simpa using ht.symm)
    simp [unquotePlusAux, hplus, hpct, ht]
  · by_cases h32 : b = 32
    · subst h32
      rfl
    · rw [show quoteByte b = ['%', toHexUpper (b / 16), toHexUpper (b % 16)] from by
        simp [quoteByte, hs, h32]]
      have e1 := hexUpper_val (b / 16) (by omega)
      have e2 := hexUpper_val (b % 16) (by omega)
      have hv : b / 16 * 16 + b % 16 = b := by omega
      simp [unquotePlusAux, e1, e2, hv]

theorem quoteByte_ne_nil (b : Nat) : quoteByte b ≠ [] := by
  unfold quoteByte
  repeat' split
  all_goals simp

theorem quotePlus_length (bs : List Nat) : bs.length ≤ (quotePlus bs).length := by
  induction bs with
  | nil => simp [quotePlus]
  | cons b bs ih =>
    have hc : 1 ≤ (quoteByte b).length := List.length_pos.mpr (quoteByte_ne_nil b)
    simp only [quotePlus, List.map_cons, List.flatten_cons, List.length_cons,
      List.length_append] at *
    omega

theorem unquotePlusAux_roundtrip (bs : List Nat) :
    ∀ fuel, bs.length < fuel → (∀ b ∈ bs, b < 256) →
      unquotePlusAux fuel (quotePlus bs) = some bs := by
  induction bs with
  | nil =>
    intro fuel hf _
    match fuel, hf with
    | f + 1, _ => rfl
  | cons b bs ih =>
    intro fuel hf h
    match fuel, hf with
    | f + 1, hf2 =>
      rw [show quotePlus (b :: bs) = quoteByte b ++ quotePlus bs from by simp [quotePlus]]
      rw [quoteByte_step b (h b (by simp)),
        ih f (by simp at hf2; omega) (fun x hx => h x (by simp [hx]))]
      rfl

theorem quotePlus_roundtrip (bs : List Nat) (h : ∀ b ∈ bs, b < 256) :
    unquotePlus (quotePlus bs) = some bs := by
  unfold unquotePlus
  exact unquotePlusAux_roundtrip bs _ (by have := quotePlus_length bs; omega) h

/-! ### C7 stage G: locating the config parameter in the deeplink -/

theorem data_mk (l : List Char) : (String.mk l).data = l := rfl

theorem toHexUpper_ne :
    ∀ d, d < 16 → toHexUpper d ≠ '&' ∧ toHexUpper d ≠ '=' ∧ toHexUpper d ≠ '?' := by decide

theorem quoteByte_chars (b : Nat) (hb : b < 256) :
    ∀ c ∈ quoteByte b, c ≠ '&' ∧ c ≠ '=' ∧ c ≠ '?' := by
  intro c hc
  by_cases hs : safeByte b = true
  · rw [show quoteByte b = [Char.ofNat b] from by simp [quoteByte, hs]] at hc
    simp at hc
    subst hc
    have ht := toNat_ofNat_small b (by omega)
    have hr : (48 ≤ b ∧ b ≤ 57) ∨ (65 ≤ b ∧ b ≤ 90) ∨ (97 ≤ b ∧ b ≤ 122) ∨
        b = 95 ∨ b = 46 ∨ b = 45 ∨ b = 126 := by
      simpa [safeByte, decide_eq_true_eq] using hs
    refine ⟨?_, ?_, ?_⟩
    · intro he
      rw [he] at ht
      have h1 : ('&').toNat = 38 := rfl
      omega
    · intro he
      rw [he] at ht
      have h1 : ('=').toNat = 61 := rfl
      omega
    · intro he
      rw [he] at ht
      have h1 : ('?').toNat = 63 := rfl
      omega
  · by_cases h32 : b = 32
    · subst h32
      rw [show quoteByte 32 = ['+'] from rfl] at hc
      simp at hc
      subst hc
      exact ⟨by decide, by decide, by decide⟩
    · rw [show quoteByte b = ['%', toHexUpper (b / 16), toHexUpper (b % 16)] from by
        simp [quoteByte, hs, h32]] at hc
      simp at hc
      rcases hc with hc | hc | hc
      · subst hc
        exact ⟨by decide, by decide, by decide⟩
      · subst hc
        exact toHexUpper_ne _ (by omega)
      · subst hc
        exact toHexUpper_ne _ (by omega)

theorem quotePlus_chars (bs : List Nat) (h : ∀ b ∈ bs, b < 256) :
    ∀ c ∈ quotePlus bs, c ≠ '&' ∧ c ≠ '=' ∧ c ≠ '?' := by
  induction bs with
  | nil => simp [quotePlus]
  | cons b bs ih =>
    intro c hc
    rw [show quotePlus (b :: bs) = quoteByte b ++ quotePlus bs from by simp [quotePlus]] at hc
    rcases List.mem_append.mp hc with hm | hm
    · exact quoteByte_chars b (h b (by simp)) c hm
    · exact ih (fun x hx => h x (by simp [hx])) c hm

theorem dropWhile_ne_append (sep : Char) (pre q : List Char) (h : ∀ c ∈ pre, c ≠ sep) :
    (pre ++ sep :: q).dropWhile (fun c => c != sep) = sep :: q := by
  induction pre with
  | nil => simp [List.dropWhile_cons]
  | cons c t ih =>
    have hc : c ≠ sep := h c (by simp)
    simp only [List.cons_append, List.dropWhile_cons]
    rw [if_pos (by simpa using hc)]
    exact ih (fun x hx => h x (by simp [hx]))

theorem afterChar_eq (sep : Char) (pre q : List Char) (h : ∀ c ∈ pre, c ≠ sep) :
    afterChar sep (pre ++ sep :: q) = q := by
  unfold afterChar
  rw [dropWhile_ne_append sep pre q h]
  rfl

theorem splitOnChar_no (sep : Char) (l : List Char) (h : ∀ c ∈ l, c ≠ sep) :
    splitOnChar sep l = [l] := by
  induction l with
  | nil => rfl
  | cons c t ih =>
    have hc : c ≠ sep := h c (by simp)
    have iht := ih (fun x hx => h x (by simp [hx]))
    simp [splitOnChar, hc, iht]

theorem splitOnChar_app (sep : Char) (a r : List Char) (h : ∀ c ∈ a, c ≠ sep) :
    splitOnChar sep (a ++ sep :: r) = a :: splitOnChar sep r := by
  induction a with
  | nil => simp [splitOnChar]
  | cons c t ih =>
    have hc : c ≠ sep := h c (by simp)
    have iht := ih (fun x hx => h x (by simp [hx]))
    simp [splitOnChar, hc, iht]

theorem paramValue_self (k v : List Char) (hk : ∀ c ∈ k, c ≠ '=') :
    paramValue k (k ++ '=' :: v) = some v := by
  have tw := takeWhile_all_append (fun c => c != '=') k ('=' :: v)
    (by intro c hc; simpa using hk c hc) (by simp)
  unfold paramValue
  rw [tw.1, tw.2, if_pos rfl]
  rfl

theorem paramValue_ne (key k v : List Char) (hk : ∀ c ∈ k, c ≠ '=') (hne : k ≠ key) :
    paramValue key (k ++ '=' :: v) = none := by
  have tw := takeWhile_all_append (fun c => c != '=') k ('=' :: v)
    (by intro c hc; simpa using hk c hc) (by simp)
  unfold paramValue
  rw [tw.1, if_neg hne]

theorem generate_deeplink_eq (server_name : String) (config : Json) :
    generate_deeplink server_name config
      = String.mk ("lmstudio://add_mcp".data ++ '?' ::
          urlencode2 "name" server_name "config"
            (String.mk (b64encode (utf8Encode (jsonDumps config).data)))) := rfl

/-- The full decoding chain of `decodeDeeplink` inverts `generate_deeplink`:
extract the `config` parameter, undo `quote_plus`, read the value as text,
undo base64, decode the UTF-8 of the JSON document, parse it back. -/
theorem decodeDeeplink_generate (server_name : String) (config : Json) :
    decodeDeeplink (generate_deeplink server_name config) = some config := by
  have hJB : ∀ b ∈ utf8Encode (jsonDumps config).data, b < 256 := utf8Encode_lt _
  have hVB : ∀ b ∈ utf8Encode (String.mk (b64encode (utf8Encode (jsonDumps config).data))).data,
      b < 256 := utf8Encode_lt _
  have hName : ∀ b ∈ utf8Encode server_name.data, b < 256 := utf8Encode_lt _
  rw [generate_deeplink_eq]
  unfold decodeDeeplink
  rw [data_mk]
  rw [afterChar_eq '?' _ _ (by decide)]
  rw [show urlencode2 "name" server_name "config"
        (String.mk (b64encode (utf8Encode (jsonDumps config).data)))
      = urlencodePair "name" server_name ++ '&' :: urlencodePair "config"
          (String.mk (b64encode (utf8Encode (jsonDumps config).data))) from rfl]
  rw [splitOnChar_app '&' _ _ (by
    intro c hc
    unfold urlencodePair at hc
    rcases List.mem_append.mp hc with hm | hm
    · exact (quotePlus_chars _ (utf8Encode_lt _) c hm).1
    · rcases List.mem_cons.mp hm with hm | hm
      · subst hm; decide
      · exact (quotePlus_chars _ hName c hm).1)]
  rw [splitOnChar_no '&' _ (by
    intro c hc
    unfold urlencodePair at hc
    rcases List.mem_append.mp hc with hm | hm
    · exact (quotePlus_chars _ (utf8Encode_lt _) c hm).1
    · rcases List.mem_cons.mp hm with hm | hm
      · subst hm; decide
      · exact (quotePlus_chars _ hVB c hm).1)]
  simp only [findParam]
  rw [show urlencodePair "name" server_name
      = "name".data ++ '=' :: quotePlus (utf8Encode server_name.data) from by
    unfold urlencodePair
    rw [show quotePlus (utf8Encode ("name" : String).data) = "name".data from by decide]]
  rw [paramValue_ne "config".data "name".data _ (by decide) (by decide)]
  rw [show urlencodePair "config" (String.mk (b64encode (utf8Encode (jsonDumps config).data)))
      = "config".data ++ '=' :: quotePlus (utf8Encode
          (String.mk (b64encode (utf8Encode (jsonDumps config).data))).data) from by
    unfold urlencodePair
    rw [show quotePlus (utf8Encode ("config" : String).data) = "config".data from by decide]]
  rw [paramValue_self "config".data _ (by decide)]
  simp only [Bind.bind]
  rw [Option.some_bind, quotePlus_roundtrip _ hVB]
  rw [Option.some_bind, data_mk, utf8Decode_encode]
  rw [Option.some_bind, b64_roundtrip _ hJB]
  rw [Option.some_bind, show (jsonDumps config).data = dumpsJ config from rfl,
    utf8Decode_encode]
  rw [Option.some_bind]
  exact parseJsonChars_dumpsJ config

/-! ### C7: the claim -/

/-- **C7.** Decoding the configuration embedded in a generated deeplink —
reversing the URL-encoding, the base64, and the JSON serialization — yields
exactly the original configuration object, for every server name and every
configuration value; in particular, for `command="python3"`,
`script_path="a.py"` and no environment variables, the embedded
configuration decodes to exactly `{"command": "python3", "args": ["a.py"]}`. -/
theorem deeplink_config_roundtrip :
    (∀ (server_name : String) (config : Json),
      decodeDeeplink (generate_deeplink server_name config) = some config) ∧
    decodeDeeplink (generate_deeplink "lmstudio-bridge" (create_stdio_config "python3" "a.py" none))
      = some (.jobj [("command", .jstr "python3"), ("args", .jarr [.jstr "a.py"])]) := by
  refine ⟨decodeDeeplink_generate, ?_⟩
  rw [decodeDeeplink_generate "lmstudio-bridge" (create_stdio_config "python3" "a.py" none)]
  rfl

/-! ### C9: malformed JSON for --env / --headers -/

/-- **C9 (amended).** Malformed JSON aborts the installer before any side
effect *in the branches that parse it*: with no preset selected, a malformed
`--env` in the stdio branch (no URL), or a malformed `--headers` in the SSE
branch (URL given), makes `main` fail fatally with no deeplink printed and
no file written. (In the preset branch — and for `--env` in the SSE branch
— the malformed argument is never parsed at all, which is what refutes the
claim as stated.) -/
theorem malformed_json_fatal_in_parse_branch :
    ∀ (loads : String → Option Json) (args : InstArgs) (s : String),
      args.preset = none →
      ((optTruthy args.url = none → optTruthy args.env = some s → loads s = none →
          mainInstaller loads args = ⟨[], some jsonDecodeError⟩) ∧
       (∀ u, optTruthy args.url = some u → optTruthy args.headers = some s → loads s = none →
          mainInstaller loads args = ⟨[], some jsonDecodeError⟩)) := by
  intro loads args s hpreset
  constructor
  · intro hurl henv hloads
    simp [mainInstaller, hpreset, hurl, henv, hloads]
  · intro u hurl hhdr hloads
    simp [mainInstaller, hpreset, hurl, hhdr, hloads]

/-- Witness for C9 (amended): `--env "not json"` in the stdio branch and
`--headers "not json"` in the SSE branch are both fatal with no effects. -/
theorem malformed_json_fatal_in_parse_branch_witness :
    mainInstaller parseJsonStr { env := some "not json" } = ⟨[], some jsonDecodeError⟩ ∧
    mainInstaller parseJsonStr { url := some "http://x", headers := some "not json" }
      = ⟨[], some jsonDecodeError⟩ :=
  ⟨(malformed_json_fatal_in_parse_branch parseJsonStr { env := some "not json" }
      "not json" rfl).1 rfl rfl (by rfl),
   (malformed_json_fatal_in_parse_branch parseJsonStr
      { url := some "http://x", headers := some "not json" } "not json" rfl).2
      "http://x" rfl rfl (by rfl)⟩

/-- Counterexample to C9 as stated: with `--preset local` selected, a
malformed `--env` is never parsed — the run succeeds (no fatal error) and
performs side effects, contradicting "for every invocation whose --env … is
not valid JSON, the installer fails before performing any side effect". -/
theorem preset_branch_skips_env_validation :
    parseJsonStr "\x7b" = none ∧
    (mainInstaller parseJsonStr
      { preset := some .plocal, env := some "\x7b", print_link := true }).fatal = none ∧
    (mainInstaller parseJsonStr
      { preset := some .plocal, env := some "\x7b", print_link := true }).effects ≠ [] := by
  refine ⟨rfl, rfl, ?_⟩
  intro h
  simp [mainInstaller, finishInstaller] at h

/-! ### String helpers -/

theorem ne_empty_of_data_ne_nil (s : String) (h : s.data ≠ []) : s ≠ "" := by
  intro he
  rw [he] at h
  exact h rfl

theorem append_ne_empty_left (a b : String) (h : a.data ≠ []) : a ++ b ≠ "" := by
  apply ne_empty_of_data_ne_nil
  rw [String.data_append]
  intro hn
  exact h (List.append_eq_nil.mp hn).1

theorem mk_ne_empty_of_ne_nil (l : List Char) (h : l ≠ []) : String.mk l ≠ "" := by
  intro he
  exact h (congrArg String.data he)

theorem render_ne_empty_of_truthy (v : Json) (h : truthy v = true) : render v ≠ "" := by
  cases v with
  | jnull => simp [truthy] at h
  | jbool b =>
    cases b with
    | false => simp [truthy] at h
    | true => decide
  | jnum n =>
    simp only [render, reprPy]
    exact mk_ne_empty_of_ne_nil _ (intChars_ne_nil n)
  | jstr s =>
    simp only [render]
    intro he
    rw [he] at h
    exact absurd h (by decide)
  | jarr xs =>
    simp only [render, reprPy]
    exact append_ne_empty_left "[" _ (by decide)
  | jobj kvs =>
    simp only [render, reprPy]
    exact append_ne_empty_left "\x7b" _ (by decide)

theorem append_append_ne_empty (a b c : String) (h : a.data ≠ []) : a ++ b ++ c ≠ "" :=
  append_ne_empty_left _ _ (by
    rw [String.data_append]
    intro hn
    exact h (List.append_eq_nil.mp hn).1)

/-- The `try/except` wrapper at the end of each tool: the result is non-empty
whenever every normal return is and the handler prefix is. -/
theorem handled_ne_empty (res : Except String String) (pre : String) (hpre : pre.data ≠ [])
    (hok : ∀ s, res = .ok s → s ≠ "") : handleErr pre res ≠ "" := by
  cases res with
  | ok s => exact hok s rfl
  | error e => exact append_ne_empty_left pre e hpre

theorem dumpsInd_jobj_ne_nil (lvl : Nat) (kvs : List (String × Json)) :
    dumpsInd lvl (.jobj kvs) ≠ [] := by
  cases kvs <;> simp [dumpsInd]

/-! ### C3: every tool returns descriptive text, no uncaught faults -/

theorem health_check_ne_empty (b : Backend) : health_check b ≠ "" := by
  cases b with
  | noConn e =>
    apply append_ne_empty_left
    decide
  | resp status body text =>
    simp only [health_check]
    split
    · decide
    · apply append_append_ne_empty
      decide

theorem list_models_ne_empty (b : Backend) : list_models b ≠ "" := by
  cases b with
  | noConn e =>
    apply append_ne_empty_left
    decide
  | resp status body text =>
    simp only [list_models]
    split
    · apply append_ne_empty_left
      decide
    · apply handled_ne_empty
      · decide
      intro s hs
      cases body with
      | error e => simp [Bind.bind, Except.bind] at hs
      | ok data =>
        simp only [Bind.bind, Except.bind] at hs
        cases data with
        | jobj kvs =>
          simp only [jGet] at hs
          split at hs
          · simp [pure, Except.pure] at hs
            subst hs
            decide
          · cases hit : iterJson ((lookupJ kvs "data").getD (Json.jarr [])) with
            | error e => rw [hit] at hs; simp at hs
            | ok items =>
              rw [hit] at hs
              simp only at hs
              cases hf : fmtModelLines items with
              | error e => rw [hf] at hs; simp at hs
              | ok lines =>
                rw [hf] at hs
                simp [pure, Except.pure] at hs
                subst hs
                apply append_ne_empty_left
                decide
        | jnull => simp [jGet] at hs
        | jbool v => simp [jGet] at hs
        | jnum n => simp [jGet] at hs
        | jstr s2 => simp [jGet] at hs
        | jarr xs => simp [jGet] at hs

theorem get_current_model_ne_empty (b : Backend) : get_current_model b ≠ "" := by
  cases b with
  | noConn e =>
    apply append_ne_empty_left
    decide
  | resp status body text =>
    simp only [get_current_model]
    split
    · apply append_ne_empty_left
      decide
    · apply handled_ne_empty
      · decide
      intro s hs
      cases body with
      | error e => simp [Bind.bind, Except.bind] at hs
      | ok data =>
        simp only [Bind.bind, Except.bind] at hs
        cases data with
        | jobj kvs =>
          simp [jGet, pure, Except.pure] at hs
          subst hs
          apply append_ne_empty_left
          decide
        | jnull => simp [jGet] at hs
        | jbool v => simp [jGet] at hs
        | jnum n => simp [jGet] at hs
        | jstr s2 => simp [jGet] at hs
        | jarr xs => simp [jGet] at hs

theorem chat_completion_ne_empty (b : Backend) : chat_completion b ≠ "" := by
  cases b with
  | noConn e =>
    apply append_ne_empty_left
    decide
  | resp status body text =>
    simp only [chat_completion]
    split
    · apply append_append_ne_empty
      rw [String.data_append]
      intro hn
      exact absurd (List.append_eq_nil.mp hn).1 (by decide)
    · apply handled_ne_empty
      · decide
      intro s hs
      cases body with
      | error e => simp [Bind.bind, Except.bind] at hs
      | ok data =>
        simp only [Bind.bind, Except.bind] at hs
        cases data with
        | jobj kvs =>
          simp only [jGet] at hs
          split at hs
          · simp [pure, Except.pure] at hs
            subst hs
            decide
          · cases hat : jAt ((lookupJ kvs "choices").getD (Json.jarr [])) 0 with
            | error e => rw [hat] at hs; simp at hs
            | ok c0 =>
              rw [hat] at hs
              simp only at hs
              cases c0 with
              | jobj c0kvs =>
                simp only [jGet] at hs
                cases hm : (lookupJ c0kvs "message").getD (Json.jobj []) with
                | jobj mkvs =>
                  rw [hm] at hs
                  simp only [jGet] at hs
                  split at hs
                  · simp [pure, Except.pure] at hs
                    subst hs
                    decide
                  · simp only [pure, Except.pure, Except.ok.injEq] at hs
                    subst hs
                    apply render_ne_empty_of_truthy
                    rename_i hc
                    rcases Bool.eq_false_or_eq_true
                        (truthy ((lookupJ mkvs "content").getD (Json.jstr ""))) with hb | hb
                    · exact hb
                    · exact absurd hb hc
                | jnull => rw [hm] at hs; simp [jGet] at hs
                | jbool v => rw [hm] at hs; simp [jGet] at hs
                | jnum n => rw [hm] at hs; simp [jGet] at hs
                | jstr s2 => rw [hm] at hs; simp [jGet] at hs
                | jarr xs => rw [hm] at hs; simp [jGet] at hs
              | jnull => simp [jGet] at hs
              | jbool v => simp [jGet] at hs
              | jnum n => simp [jGet] at hs
              | jstr s2 => simp [jGet] at hs
              | jarr xs => simp [jGet] at hs
        | jnull => simp [jGet] at hs
        | jbool v => simp [jGet] at hs
        | jnum n => simp [jGet] at hs
        | jstr s2 => simp [jGet] at hs
        | jarr xs => simp [jGet] at hs

theorem multi_agent_query_str_ne_empty (models : List String) (backends : Nat → Backend) :
    multi_agent_query_str models backends ≠ "" := by
  unfold multi_agent_query_str
  cases multi_agent_query_agg models backends with
  | errorOut msg =>
    exact mk_ne_empty_of_ne_nil _ (by simp [dumpsJ])
  | results d =>
    exact mk_ne_empty_of_ne_nil _ (dumpsInd_jobj_ne_nil 0 _)

/-- **C3.** Every bridge tool, under every backend behaviour (connection
failure, non-success status, malformed body, missing or ill-typed fields),
returns a non-empty text result; each tool is a total function of the
backend oracle, i.e. no exception escapes the `try/except` wrappers. -/
theorem bridge_tools_total_text :
    ∀ (b : Backend) (models : List String) (backends : Nat → Backend),
      health_check b ≠ "" ∧ list_models b ≠ "" ∧ get_current_model b ≠ "" ∧
      chat_completion b ≠ "" ∧ multi_agent_query_str models backends ≠ "" :=
  fun b models backends =>
    ⟨health_check_ne_empty b, list_models_ne_empty b, get_current_model_ne_empty b,
     chat_completion_ne_empty b, multi_agent_query_str_ne_empty models backends⟩

/-! ### C4: empty model list -/

/-- **C4.** Calling `multi_agent_query` with an empty model list returns the
explicit error object `{"error": "No models specified"}` (already before
serialization it is the `errorOut` alternative, which carries no per-model
Success/Failure entries), not an empty aggregate. -/
theorem empty_model_list_explicit_error :
    ∀ backends : Nat → Backend,
      multi_agent_query_agg [] backends = .errorOut "No models specified" ∧
      multi_agent_query_str [] backends = "\x7b\"error\": \"No models specified\"\x7d" := by
  intro backends
  constructor
  · rfl
  · rfl

/-! ### C5: chat_completion empty-response handling -/

/-- **C5.** When the backend answers `chat_completion` with status 200 but the
`choices` list is missing or empty, the tool returns the descriptive string
`"Error: No response generated"`; when choices exist but the extracted
content is empty (falsy or absent), it returns the distinct string
`"Error: Empty response from model"`; both are non-empty error strings, so an
empty body never yields an empty success result. -/
theorem chat_completion_empty_response_distinct_error :
    ∀ (body : List (String × Json)) (text : String),
      (truthy ((lookupJ body "choices").getD (.jarr [])) = false →
        chat_completion (.resp 200 (.ok (.jobj body)) text) = "Error: No response generated") ∧
      (∀ (c0 : List (String × Json)) (restChoices : List Json) (msg : List (String × Json)),
        lookupJ body "choices" = some (.jarr (.jobj c0 :: restChoices)) →
        lookupJ c0 "message" = some (.jobj msg) →
        truthy ((lookupJ msg "content").getD (.jstr "")) = false →
        chat_completion (.resp 200 (.ok (.jobj body)) text) = "Error: Empty response from model") ∧
      (("Error: No response generated" : String) ≠ "Error: Empty response from model" ∧
       ("Error: No response generated" : String) ≠ "" ∧
       ("Error: Empty response from model" : String) ≠ "") := by
  intro body text
  refine ⟨?_, ?_, by decide, by decide, by decide⟩
  · intro h
    simp only [chat_completion, jGet]
    rw [if_neg (by omega)]
    simp [Bind.bind, Except.bind, h, pure, Except.pure, handleErr]
  · intro c0 restChoices msg hchoices hmsg hcontent
    have hch : truthy (Json.jarr (Json.jobj c0 :: restChoices)) = true := rfl
    simp only [chat_completion, jGet]
    rw [if_neg (by omega)]
    simp [Bind.bind, Except.bind, hchoices, jAt, hmsg, hcontent, hch, pure, Except.pure, handleErr]

/-- Witness for C5 at concrete inputs: an empty `choices` list and an empty
content string take the two distinct error branches. -/
theorem chat_completion_empty_response_distinct_error_witness :
    chat_completion (.resp 200 (.ok (.jobj [("choices", Json.jarr [])])) "")
      = "Error: No response generated" ∧
    chat_completion (.resp 200 (.ok (.jobj
        [("choices", Json.jarr [Json.jobj [("message", Json.jobj [("content", Json.jstr "")])]])])) "")
      = "Error: Empty response from model" :=
  ⟨(chat_completion_empty_response_distinct_error [("choices", Json.jarr [])] "").1 rfl,
   (chat_completion_empty_response_distinct_error
      [("choices", Json.jarr [Json.jobj [("message", Json.jobj [("content", Json.jstr "")])]])] "").2.1
      [("message", Json.jobj [("content", Json.jstr "")])] [] [("content", Json.jstr "")]
      rfl rfl rfl⟩

/-! ### Dict lemmas for the fan-out aggregate -/

theorem dlookup_dinsert (d : List (String × MEntry)) (k : String) (v : MEntry) (q : String) :
    dlookup (dinsert d k v) q = if q = k then some v else dlookup d q := by
  induction d with
  | nil =>
    rcases eq_or_ne q k with h | h
    · subst h; simp [dinsert, dlookup]
    · simp [dinsert, dlookup, h, Ne.symm h]
  | cons hd tl ih =>
    obtain ⟨a, b⟩ := hd
    by_cases hak : a = k
    · subst hak
      rcases eq_or_ne q a with h | h
      · subst h; simp [dinsert, dlookup]
      · simp [dinsert, dlookup, h, Ne.symm h]
    · rcases eq_or_ne a q with h | h
      · subst h
        simp [dinsert, dlookup, hak, Ne.symm hak]
      · simp [dinsert, dlookup, hak, h, ih]

theorem mem_keys_dinsert (d : List (String × MEntry)) (k : String) (v : MEntry) (q : String) :
    q ∈ (dinsert d k v).map Prod.fst ↔ q ∈ d.map Prod.fst ∨ q = k := by
  induction d with
  | nil => simp [dinsert]
  | cons hd tl ih =>
    obtain ⟨a, b⟩ := hd
    by_cases hak : a = k
    · subst hak
      simp [dinsert]
      tauto
    · simp [dinsert, hak, ih]
      tauto

theorem nodup_keys_dinsert (d : List (String × MEntry)) (k : String) (v : MEntry)
    (h : (d.map Prod.fst).Nodup) : ((dinsert d k v).map Prod.fst).Nodup := by
  induction d with
  | nil => simp [dinsert]
  | cons hd tl ih =>
    obtain ⟨a, b⟩ := hd
    simp only [List.map_cons, List.nodup_cons] at h
    by_cases hak : a = k
    · subst hak
      rw [show dinsert ((a, b) :: tl) a v = (a, v) :: tl from by simp [dinsert]]
      simp only [List.map_cons, List.nodup_cons]
      exact h
    · rw [show dinsert ((a, b) :: tl) k v = (a, b) :: dinsert tl k v from by simp [dinsert, hak]]
      simp only [List.map_cons, List.nodup_cons]
      refine ⟨?_, ih h.2⟩
      intro hmem
      rcases (mem_keys_dinsert tl k v a).mp hmem with hm | he
      · exact h.1 hm
      · exact hak he

theorem buildDict_concat (ps : List (String × MEntry)) (p : String × MEntry) :
    buildDict (ps ++ [p]) = dinsert (buildDict ps) p.1 p.2 := by
  simp [buildDict, List.foldl_append]

theorem dlookup_buildDict (ps : List (String × MEntry)) (k : String) :
    dlookup (buildDict ps) k = ((ps.filter (fun p => p.1 == k)).getLast?).map Prod.snd := by
  induction ps using List.reverseRecOn with
  | nil => simp [buildDict, dlookup]
  | append_singleton ps p ih =>
    rw [buildDict_concat, dlookup_dinsert, List.filter_append]
    by_cases hp : p.1 = k
    · simp [hp, List.filter_cons]
    · simp [hp, Ne.symm hp, List.filter_cons, ih]

theorem mem_keys_buildDict (ps : List (String × MEntry)) (k : String) :
    k ∈ (buildDict ps).map Prod.fst ↔ k ∈ ps.map Prod.fst := by
  induction ps using List.reverseRecOn with
  | nil => simp [buildDict]
  | append_singleton ps p ih =>
    rw [buildDict_concat, mem_keys_dinsert]
    simp [ih]

theorem nodup_keys_buildDict (ps : List (String × MEntry)) :
    ((buildDict ps).map Prod.fst).Nodup := by
  induction ps using List.reverseRecOn with
  | nil => simp [buildDict]
  | append_singleton ps p ih =>
    rw [buildDict_concat]
    exact nodup_keys_dinsert _ _ _ ih

theorem query_single_model_fst (m : String) (b : Backend) :
    (query_single_model m b).1 = m := by
  cases b with
  | noConn e => rfl
  | resp status body text =>
    simp only [query_single_model]
    split
    · split <;> rfl
    · rfl

theorem agg_pairs (models : List String) (backends : Nat → Backend) :
    (models.enum.map (fun p => TaskResult.value (query_single_model p.2 (backends p.1)))).map
        taskPair
      = models.enum.map (fun p => query_single_model p.2 (backends p.1)) := by
  rw [List.map_map]
  rfl

theorem agg_keys (models : List String) (backends : Nat → Backend) :
    (models.enum.map (fun p => query_single_model p.2 (backends p.1))).map Prod.fst = models := by
  rw [List.map_map]
  have hc : (Prod.fst ∘ fun p : Nat × String => query_single_model p.2 (backends p.1))
      = Prod.snd := by
    funext p
    exact query_single_model_fst p.2 (backends p.1)
  rw [hc, List.enum_map_snd]

/-- Shared core for C1/C2/C10: for a non-empty model list the aggregate is the
`results` dict; its keys are duplicate-free, and looking up any string gives
the entry of the last input occurrence of that model (none if absent). -/
theorem agg_dlookup (models : List String) (backends : Nat → Backend) (hne : models ≠ []) :
    ∃ d, multi_agent_query_agg models backends = .results d ∧
      (d.map Prod.fst).Nodup ∧
      (∀ k, k ∈ d.map Prod.fst ↔ k ∈ models) ∧
      ∀ m, dlookup d m =
        ((models.enum.filter (fun p => p.2 == m)).getLast?).map
          (fun p => (query_single_model p.2 (backends p.1)).2) := by
  unfold multi_agent_query_agg
  rw [if_neg hne]
  refine ⟨_, rfl, nodup_keys_buildDict _, ?_, ?_⟩
  · intro k
    unfold processResults
    rw [mem_keys_buildDict, agg_pairs]
    rw [show (models.enum.map (fun p => query_single_model p.2 (backends p.1))).map Prod.fst
        = models from agg_keys models backends]
  · intro m
    unfold processResults
    rw [dlookup_buildDict, agg_pairs, List.filter_map]
    have hpf : ((fun q : String × MEntry => q.1 == m) ∘ fun p : Nat × String =>
        query_single_model p.2 (backends p.1)) = fun p : Nat × String => p.2 == m := by
      funext p
      simp [Function.comp, query_single_model_fst]
    rw [hpf, List.getLast?_map, Option.map_map]
    rfl

/-! ### C1: the aggregate covers exactly the requested models -/

/-- **C1.** For every non-empty model list, the aggregate of
`multi_agent_query` is the per-model results dict whose key set equals the
set of requested model identifiers — exactly, and hence also after ignoring
the `"unknown"` sentinel on both sides — no matter how many of the
individual requests fail (the backend oracle is universally quantified). -/
theorem multi_agent_query_key_set_covers_input :
    ∀ (models : List String) (backends : Nat → Backend), models ≠ [] →
      ∃ d, multi_agent_query_agg models backends = .results d ∧
        (d.map Prod.fst).toFinset = models.toFinset ∧
        (d.map Prod.fst).toFinset.erase "unknown" = models.toFinset.erase "unknown" := by
  intro models backends hne
  obtain ⟨d, hd, _, hmem, _⟩ := agg_dlookup models backends hne
  have hfin : (d.map Prod.fst).toFinset = models.toFinset := by
    apply Finset.ext
    intro a
    simp [List.mem_toFinset, hmem]
  exact ⟨d, hd, hfin, by rw [hfin]⟩

/-- Witness for C1: two models, both of whose requests fail, still yield the
key set `{alpha, beta}`. -/
theorem multi_agent_query_key_set_covers_input_witness :
    (["alpha", "beta"] : List String) ≠ [] ∧
    ∃ d, multi_agent_query_agg ["alpha", "beta"] (fun _ => .noConn "down") = .results d ∧
      (d.map Prod.fst).toFinset = (["alpha", "beta"] : List String).toFinset ∧
      (d.map Prod.fst).toFinset.erase "unknown"
        = (["alpha", "beta"] : List String).toFinset.erase "unknown" :=
  ⟨by decide,
   multi_agent_query_key_set_covers_input ["alpha", "beta"] (fun _ => .noConn "down") (by decide)⟩

/-! ### C10: duplicates — one entry per identifier, last occurrence wins -/

/-- **C10.** The aggregate dict has exactly one entry per distinct
identifier, and the entry stored for any model is the one produced for its
last occurrence in the input order (later assignments overwrite earlier
ones under the same key). -/
theorem duplicate_models_last_occurrence_wins :
    ∀ (models : List String) (backends : Nat → Backend), models ≠ [] →
      ∃ d, multi_agent_query_agg models backends = .results d ∧
        (d.map Prod.fst).Nodup ∧
        ∀ m, dlookup d m =
          ((models.enum.filter (fun p => p.2 == m)).getLast?).map
            (fun p => (query_single_model p.2 (backends p.1)).2) := by
  intro models backends hne
  obtain ⟨d, hd, hnd, _, hlook⟩ := agg_dlookup models backends hne
  exact ⟨d, hd, hnd, hlook⟩

/-- Witness for C10: the same model listed twice, failing at occurrence 0 and
succeeding at occurrence 1; the kept entry is the success of the last
occurrence. -/
theorem duplicate_models_last_occurrence_wins_witness :
    (["m", "m"] : List String) ≠ [] ∧
    ∃ d, multi_agent_query_agg ["m", "m"]
        (fun i => if i = 0 then .noConn "down" else
          .resp 200 (.ok (.jobj [("choices",
            .jarr [.jobj [("message", .jobj [("content", .jstr "ok")])]])])) "") = .results d ∧
      (d.map Prod.fst).Nodup ∧
      ∀ m, dlookup d m =
        (((["m", "m"] : List String).enum.filter (fun p => p.2 == m)).getLast?).map
          (fun p => (query_single_model p.2
            ((fun i => if i = 0 then Backend.noConn "down" else
              .resp 200 (.ok (.jobj [("choices",
                .jarr [.jobj [("message", .jobj [("content", .jstr "ok")])]])])) "") p.1)).2) :=
  ⟨by decide,
   duplicate_models_last_occurrence_wins ["m", "m"]
     (fun i => if i = 0 then .noConn "down" else
       .resp 200 (.ok (.jobj [("choices",
         .jarr [.jobj [("message", .jobj [("content", .jstr "ok")])]])])) "") (by decide)⟩

/-! ### C2: one failing model does not disturb the others -/

theorem enumFrom_filter_eq_singleton (l : List String) :
    l.Nodup → ∀ (n i : Nat) (h : i < l.length),
      (List.enumFrom n l).filter (fun p => p.2 == l.get ⟨i, h⟩) = [(n + i, l.get ⟨i, h⟩)] := by
  induction l with
  | nil =>
    intro _ n i h
    exact absurd h (by simp)
  | cons a tl ih =>
    intro hl n i h
    rw [List.enumFrom_cons]
    cases i with
    | zero =>
      have hget : (a :: tl).get ⟨0, h⟩ = a := rfl
      rw [hget, List.filter_cons]
      have hnil : (List.enumFrom (n + 1) tl).filter (fun p => p.2 == a) = [] := by
        apply List.filter_eq_nil_iff.mpr
        intro p hp
        have hsnd : p.2 ∈ tl := by
          have hmm : p.2 ∈ (List.enumFrom (n + 1) tl).map Prod.snd :=
            List.mem_map_of_mem _ hp
          rwa [List.enumFrom_map_snd] at hmm
        simp only [beq_iff_eq]
        intro heq
        rw [heq] at hsnd
        exact (List.nodup_cons.mp hl).1 hsnd
      simp [hnil]
    | succ j =>
      have hj : j < tl.length := by simpa using h
      have hget : (a :: tl).get ⟨j + 1, h⟩ = tl.get ⟨j, hj⟩ := rfl
      rw [hget, List.filter_cons]
      have hcond : ¬(((n, a) : Nat × String).2 == tl.get ⟨j, hj⟩) = true := by
        simp only [beq_iff_eq]
        intro heq
        exact (List.nodup_cons.mp hl).1 (heq ▸ List.get_mem tl j hj)
      rw [if_neg hcond, ih (List.nodup_cons.mp hl).2 (n + 1) j hj]
      have harith : n + 1 + j = n + (j + 1) := by omega
      rw [harith]

/-- **C2.** With duplicate-free models, if the backend call of the model at
position `j` fails (its entry is a `Failure`) while every other model's call
succeeds, then every other model's entry in the aggregate is exactly its own
successful result, attributed under its own key. -/
theorem single_failure_isolated :
    ∀ (models : List String) (backends : Nat → Backend) (j : Nat) (hj : j < models.length),
      models.Nodup →
      ((query_single_model (models.get ⟨j, hj⟩) (backends j)).2).isSuccess = false →
      (∀ i (h : i < models.length), i ≠ j →
        ((query_single_model (models.get ⟨i, h⟩) (backends i)).2).isSuccess = true) →
      ∃ d, multi_agent_query_agg models backends = .results d ∧
        ∀ i (h : i < models.length), i ≠ j →
          dlookup d (models.get ⟨i, h⟩) =
            some ((query_single_model (models.get ⟨i, h⟩) (backends i)).2) := by
  intro models backends j hj hnd hfail hsucc
  have hne : models ≠ [] := by
    intro h
    rw [h] at hj
    simp at hj
  obtain ⟨d, hd, _, _, hlook⟩ := agg_dlookup models backends hne
  refine ⟨d, hd, ?_⟩
  intro i h hij
  rw [hlook]
  have hfilter := enumFrom_filter_eq_singleton models hnd 0 i h
  rw [show models.enum = List.enumFrom 0 models from rfl, hfilter]
  simp

/-- Witness for C2: `["a", "b"]` with the request for `"b"` (position 1)
failing with HTTP 500 and the request for `"a"` succeeding; `"a"`'s entry is
its own success. -/
theorem single_failure_isolated_witness :
    ∃ d, multi_agent_query_agg ["a", "b"]
        (fun i => if i = 1 then .resp 500 (.error "malformed") "Internal Error" else
          .resp 200 (.ok (.jobj [("choices",
            .jarr [.jobj [("message", .jobj [("content", .jstr "hi")])]]),
            ("usage", .jobj [("total_tokens", .jnum 5)])])) "") = .results d ∧
      ∀ i (h : i < (["a", "b"] : List String).length), i ≠ 1 →
        dlookup d ((["a", "b"] : List String).get ⟨i, h⟩) =
          some ((query_single_model ((["a", "b"] : List String).get ⟨i, h⟩)
            ((fun i => if i = 1 then Backend.resp 500 (.error "malformed") "Internal Error" else
              .resp 200 (.ok (.jobj [("choices",
                .jarr [.jobj [("message", .jobj [("content", .jstr "hi")])]]),
                ("usage", .jobj [("total_tokens", .jnum 5)])])) "") i)).2) :=
  single_failure_isolated ["a", "b"]
    (fun i => if i = 1 then .resp 500 (.error "malformed") "Internal Error" else
      .resp 200 (.ok (.jobj [("choices",
        .jarr [.jobj [("message", .jobj [("content", .jstr "hi")])]]),
        ("usage", .jobj [("total_tokens", .jnum 5)])])) "")
    1 (by decide) (by decide) (by rfl)
    (by
      intro i h hi
      have h2 : i < 2 := by simpa using h
      interval_cases i
      · rfl
      · exact absurd rfl hi)

/-! ### C8: unattributed failures and the "unknown" sentinel -/

theorem taskPairs_unknown_filter (ts : List TaskResult)
    (hval : ∀ p, TaskResult.value p ∈ ts → p.1 ≠ "unknown") :
    (ts.map taskPair).filter (fun q => q.1 == "unknown")
      = (ts.filterMap (fun t => match t with | .exc m => some m | _ => none)).map
          (fun m => ("unknown", MEntry.failure m)) := by
  induction ts with
  | nil => simp
  | cons t ts ih =>
    have hval' : ∀ p, TaskResult.value p ∈ ts → p.1 ≠ "unknown" :=
      fun p hp => hval p (List.mem_cons_of_mem _ hp)
    cases t with
    | value p =>
      have hp : p.1 ≠ "unknown" := hval p (List.mem_cons_self _ _)
      simp [taskPair, List.filter_cons, hp, ih hval', List.filterMap_cons]
    | exc m =>
      simp [taskPair, List.filter_cons, ih hval', List.filterMap_cons]

/-- **C8 (amended).** Every raw exception among the gathered results is
written under the sentinel key `"unknown"` as a `Failure`, but successive
writes to that one key overwrite each other: when no attributed pair uses
the key `"unknown"`, the final aggregate holds under `"unknown"` exactly the
failure entry of the **last** unattributed exception; earlier ones are
overwritten rather than all being kept. -/
theorem last_unattributed_failure_kept :
    ∀ (ts : List TaskResult) (e : String),
      (ts.filterMap (fun t => match t with | .exc m => some m | _ => none)).getLast? = some e →
      (∀ p, TaskResult.value p ∈ ts → p.1 ≠ "unknown") →
      dlookup (processResults ts) "unknown" = some (.failure e) := by
  intro ts e hlast hval
  unfold processResults
  rw [dlookup_buildDict, taskPairs_unknown_filter ts hval, List.getLast?_map, hlast]
  rfl

/-- Witness for C8 (amended) at two raw exceptions: the later one is the
entry kept under `"unknown"`. -/
theorem last_unattributed_failure_kept_witness :
    dlookup (processResults [TaskResult.exc "first", TaskResult.exc "boom"]) "unknown"
      = some (.failure "boom") :=
  last_unattributed_failure_kept [TaskResult.exc "first", TaskResult.exc "boom"] "boom"
    (by rfl)
    (by
      intro p hp
      simp at hp)

/-- Counterexample to C8 as stated: with two unattributed failures in one
call, the first one (`"first"`) is *not* recorded in the final aggregate —
its entry is overwritten by the second — refuting "recorded … rather than
being discarded … for every such unattributed failure". -/
theorem unattributed_failure_overwritten :
    TaskResult.exc "first" ∈ [TaskResult.exc "first", TaskResult.exc "boom"] ∧
    processResults [TaskResult.exc "first", TaskResult.exc "boom"]
      = [("unknown", MEntry.failure "boom")] ∧
    ("unknown", MEntry.failure "first") ∉
      processResults [TaskResult.exc "first", TaskResult.exc "boom"] := by
  refine ⟨by simp, rfl, ?_⟩
  intro hmem
  rw [show processResults [TaskResult.exc "first", TaskResult.exc "boom"]
      = [("unknown", MEntry.failure "boom")] from rfl] at hmem
  simp at hmem

/-! ### C6: lazy idempotent connection pool -/

theorem get_session_of_open (st : BridgeState) (p : Pool)
    (hs : st.sess = some p) (hc : p.closed = false) : get_session st = (p, st) := by
  simp [get_session, hs, hc]

theorem get_session_post_open (st : BridgeState) :
    (get_session st).2.sess = some (get_session st).1 ∧ (get_session st).1.closed = false := by
  unfold get_session
  match h : st.sess with
  | none => simp
  | some p =>
    by_cases hc : p.closed
    · simp [hc]
    · simp [hc, h]

/-- **C6.** `get_session` is an idempotent lazy initializer: with an open
session present it returns that same pool and leaves the state untouched;
the pool-construction count increases exactly when no pool exists or the
existing one is closed; and after one call, any number of further sequential
calls leave the state (hence the construction count) unchanged and keep
returning the same pool object. -/
theorem connection_pool_lazy_idempotent :
    ∀ st : BridgeState,
      (∀ p, st.sess = some p → p.closed = false → get_session st = (p, st)) ∧
      ((get_session st).2.created = st.created + (if needNewPool st then 1 else 0)) ∧
      (∀ n, getSessionIter n (get_session st).2 = (get_session st).2) ∧
      (get_session (get_session st).2 = ((get_session st).1, (get_session st).2)) := by
  intro st
  have hfix : get_session (get_session st).2 = ((get_session st).1, (get_session st).2) :=
    get_session_of_open _ _ (get_session_post_open st).1 (get_session_post_open st).2
  refine ⟨fun p hs hc => get_session_of_open st p hs hc, ?_, ?_, hfix⟩
  · unfold get_session needNewPool
    match h : st.sess with
    | none => simp
    | some p =>
      by_cases hc : p.closed
      · simp [hc]
      · simp [hc]
  · intro n
    induction n with
    | zero => rfl
    | succ m ih =>
      show getSessionIter m (get_session (get_session st).2).2 = (get_session st).2
      rw [hfix]
      exact ih

/-- Witness for C6 at a concrete state holding an open pool: the same pool
comes back, the state is unchanged, and three more calls change nothing. -/
theorem connection_pool_lazy_idempotent_witness :
    get_session ⟨some ⟨5, false⟩, 6, 1⟩ = (⟨5, false⟩, ⟨some ⟨5, false⟩, 6, 1⟩) ∧
    getSessionIter 3 (get_session ⟨some ⟨5, false⟩, 6, 1⟩).2 = (get_session ⟨some ⟨5, false⟩, 6, 1⟩).2 :=
  ⟨(connection_pool_lazy_idempotent ⟨some ⟨5, false⟩, 6, 1⟩).1 ⟨5, false⟩ rfl rfl,
   (connection_pool_lazy_idempotent ⟨some ⟨5, false⟩, 6, 1⟩).2.2.1 3⟩

end LMBridge

